import Mathlib

/-! Tic-tac-toe: the game engine and the minimax solver of `src/app.js`.

A shallow embedding of the class `TicTacToeGame`: the board, the move entry
point `handleCellClick`, `makeMove`, the win/draw detection, the deferred
computer turn, `resetGame`/`newGame`, and the solver `getBestMove`/`minimax`.
Stateful methods pass the game object explicitly; a method that can throw
returns `Except`, the error case carrying the state at the throw; the recursion
of the solver is bounded by a fuel argument.
-/

namespace TicTacToe

/-! ## Data model -/

/-- A player mark: the strings 'X' and 'O'. -/
inductive Mark where
  | X
  | O
  deriving DecidableEq, Repr

/-- A value read from the board array: `undef` is what JavaScript gives for an
index the array does not hold (or a hole), `empty` is the empty string. -/
inductive Cell where
  | undef
  | empty
  | mark (m : Mark)
  deriving DecidableEq, Repr

/-- The array `this.board`. -/
abbrev Board := List Cell

/-- The read `board[i]`: `undefined` outside the array. -/
def Board.get (board : Board) (i : Nat) : Cell :=
  match board, i with
  | [], _ => Cell.undef
  | c :: _, 0 => c
  | _ :: rest, i + 1 => Board.get rest i

/-- The write `board[i] = c` under an array index `i` (an index below 2^32 - 1;
`PageObject.write` covers every key): inside the array it replaces the cell, past
the end the array grows up to index `i`, the cells in between being holes. -/
def Board.set (board : Board) (i : Nat) (c : Cell) : Board :=
  match board, i with
  | [], 0 => [c]
  | [], i + 1 => Cell.undef :: Board.set [] i c
  | _ :: rest, 0 => c :: rest
  | d :: rest, i + 1 => d :: Board.set rest i c

/-- JavaScript truthiness of a cell value: only 'X' and 'O' are truthy. -/
def Cell.truthy : Cell → Bool
  | Cell.mark _ => true
  | _ => false

/-- The value `Array(9).fill('')`. -/
def emptyBoard : Board := List.replicate 9 Cell.empty

/-- The field `winningPatterns`. -/
def winningPatterns : List (Nat × Nat × Nat) :=
  [(0, 1, 2), (3, 4, 5), (6, 7, 8),
   (0, 3, 6), (1, 4, 7), (2, 5, 8),
   (0, 4, 8), (2, 4, 6)]

/-- The loop of `checkWinnerForBoard` over a list of patterns: the first
pattern whose three cells hold the same truthy value gives that value. -/
def checkWinnerLoop (board : Board) : List (Nat × Nat × Nat) → Option Mark
  | [] => none
  | (a, b, c) :: rest =>
    match Board.get board a with
    | Cell.mark m =>
      if Board.get board a = Board.get board b ∧ Board.get board a = Board.get board c
      then some m
      else checkWinnerLoop board rest
    | _ => checkWinnerLoop board rest

/-- The method `checkWinnerForBoard(board)`; `none` is `null`. -/
def checkWinnerForBoard (board : Board) : Option Mark :=
  checkWinnerLoop board winningPatterns

/-- The method `isBoardFullForBoard(board)`: `every(cell => cell !== '')`. -/
def isBoardFullForBoard (board : Board) : Bool :=
  board.all (fun cell => decide (cell ≠ Cell.empty))

/-- A JavaScript number as the solver uses it: an integer or ±Infinity. -/
inductive Score where
  | negInf
  | fin (v : Int)
  | posInf
  deriving DecidableEq, Repr

/-- The comparison `a > b` on scores. -/
def Score.gt : Score → Score → Bool
  | Score.negInf, _ => false
  | Score.fin _, Score.negInf => true
  | Score.fin a, Score.fin b => decide (b < a)
  | Score.fin _, Score.posInf => false
  | Score.posInf, Score.posInf => false
  | Score.posInf, _ => true

/-- The function `Math.max(a, b)`. -/
def Score.max (a b : Score) : Score := if Score.gt b a then b else a

/-- The function `Math.min(a, b)`. -/
def Score.min (a b : Score) : Score := if Score.gt a b then b else a

/-- The loop `for (let i = 0; i < 9; i++)` of `minimax`, from index `i` with
`n` iterations left; `rec` is the recursive call `this.minimax`, and the mark
placed is 'O' when maximizing, 'X' otherwise. The board is threaded through:
each iteration writes the mark, recurses on the written board, and writes ''
back on the board that the call returns. -/
def minimaxLoop (rec : Board → Option (Score × Board)) (isMaximizing : Bool) :
    Nat → Nat → Score → Board → Option (Score × Board)
  | 0, _, bestScore, board => some (bestScore, board)
  | n + 1, i, bestScore, board =>
    if Board.get board i = Cell.empty then
      match rec (Board.set board i (Cell.mark (if isMaximizing then Mark.O else Mark.X))) with
      | none => none
      | some (score, board1) =>
        minimaxLoop rec isMaximizing n (i + 1)
          (if isMaximizing then Score.max score bestScore else Score.min score bestScore)
          (Board.set board1 i Cell.empty)
    else minimaxLoop rec isMaximizing n (i + 1) bestScore board

/-- The method `minimax(board, depth, isMaximizing)`, with a bound `fuel` on
the recursion depth (`none` when it is exhausted). The result carries the
board as the call leaves it. -/
def minimax : Nat → Board → Int → Bool → Option (Score × Board)
  | 0, _, _, _ => none
  | fuel + 1, board, depth, isMaximizing =>
    match checkWinnerForBoard board with
    | some Mark.O => some (Score.fin (10 - depth), board)
    | some Mark.X => some (Score.fin (depth - 10), board)
    | none =>
      if isBoardFullForBoard board then some (Score.fin 0, board)
      else
        minimaxLoop (fun b => minimax fuel b (depth + 1) (!isMaximizing)) isMaximizing 9 0
          (if isMaximizing then Score.negInf else Score.posInf) board

/-- The loop of `getBestMove`, from index `i` with `n` iterations left. -/
def getBestMoveLoop (fuel : Nat) :
    Nat → Nat → Score → Nat → Board → Option (Nat × Board)
  | 0, _, _, bestMove, board => some (bestMove, board)
  | n + 1, i, bestScore, bestMove, board =>
    if Board.get board i = Cell.empty then
      match minimax fuel (Board.set board i (Cell.mark Mark.O)) 0 false with
      | none => none
      | some (score, board1) =>
        if Score.gt score bestScore then
          getBestMoveLoop fuel n (i + 1) score i (Board.set board1 i Cell.empty)
        else
          getBestMoveLoop fuel n (i + 1) bestScore bestMove (Board.set board1 i Cell.empty)
    else getBestMoveLoop fuel n (i + 1) bestScore bestMove board

/-- The method `getBestMove()` on `this.board`: the chosen index together with
the board as the call leaves it. -/
def getBestMove (fuel : Nat) (board : Board) : Option (Nat × Board) :=
  getBestMoveLoop fuel 9 0 Score.negInf 0 board

/-! ## The game object -/

/-- The field `gameMode`: 'pvp' or 'pvc'. -/
inductive GameMode where
  | pvp
  | pvc
  deriving DecidableEq, Repr

/-- The field `scores`. -/
structure Scores where
  X : Nat
  O : Nat
  draw : Nat
  deriving DecidableEq, Repr

/-- The argument of `handleGameEnd`: the string 'draw' or the winning mark. -/
inductive GameResult where
  | draw
  | winner (m : Mark)
  deriving DecidableEq, Repr

/-- The fields of a `TicTacToeGame`, and `gameStatus`, the text of the page
element with that id, through which the outcome is reported. -/
structure TicTacToeGame where
  board : Board
  currentPlayer : Mark
  gameMode : GameMode
  gameActive : Bool
  scores : Scores
  isComputerThinking : Bool
  gameStatus : String
  deriving DecidableEq, Repr

/-- Modelled from the spec: the page markup is not under src/. The spec's
board is a 3×3 grid, so the page holds nine cells, with `data-index` 0 to 8;
`document.querySelector` finds a cell for these indices only and gives `null`
for any other. -/
def cellExists (cellIndex : Nat) : Bool := decide (cellIndex < 9)

/-- The mark as the text 'X' or 'O'. -/
def Mark.text : Mark → String
  | Mark.X => "X"
  | Mark.O => "O"

/-- The method `getPlayerName(player)`. -/
def getPlayerName (g : TicTacToeGame) (player : Mark) : String :=
  if g.gameMode = GameMode.pvc then
    (if player = Mark.X then "Player" else "Computer")
  else
    (if player = Mark.X then "Player 1" else "Player 2")

/-- The method `updateDisplay()`, on the status text. -/
def updateDisplay (g : TicTacToeGame) : TicTacToeGame :=
  if g.gameActive then
    if g.gameMode = GameMode.pvc then
      { g with gameStatus := if g.currentPlayer = Mark.X then "Your turn" else "Computer's turn" }
    else
      { g with gameStatus := "Player " ++ g.currentPlayer.text ++ "'s turn" }
  else g

/-- The method `checkWinner()`: `checkWinnerForBoard` on `this.board` (the
line it draws is presentation). -/
def checkWinner (g : TicTacToeGame) : Option Mark :=
  checkWinnerLoop g.board winningPatterns

/-- The method `isBoardFull()`. -/
def isBoardFull (g : TicTacToeGame) : Bool :=
  g.board.all (fun cell => decide (cell ≠ Cell.empty))

/-- The method `handleGameEnd(result)`. -/
def handleGameEnd (g : TicTacToeGame) (result : GameResult) : TicTacToeGame :=
  let g1 := { g with gameActive := false }
  match result with
  | GameResult.draw =>
    { g1 with gameStatus := "It's a draw!",
              scores := { g1.scores with draw := g1.scores.draw + 1 } }
  | GameResult.winner Mark.X =>
    { g1 with gameStatus := getPlayerName g1 Mark.X ++ " wins!",
              scores := { g1.scores with X := g1.scores.X + 1 } }
  | GameResult.winner Mark.O =>
    { g1 with gameStatus := getPlayerName g1 Mark.O ++ " wins!",
              scores := { g1.scores with O := g1.scores.O + 1 } }

/-- The method `makeMove(cellIndex, player)`. The board is written first; when
the page has no cell for `cellIndex` the next statement throws a TypeError,
and the result is `Except.error` with the state at that point. -/
def makeMove (g : TicTacToeGame) (cellIndex : Nat) (player : Mark) :
    Except TicTacToeGame TicTacToeGame :=
  let g1 := { g with board := Board.set g.board cellIndex (Cell.mark player) }
  if cellExists cellIndex then
    match checkWinner g1 with
    | some winner => Except.ok (handleGameEnd g1 (GameResult.winner winner))
    | none =>
      if isBoardFull g1 then Except.ok (handleGameEnd g1 GameResult.draw)
      else
        Except.ok (updateDisplay
          { g1 with currentPlayer := if g1.currentPlayer = Mark.X then Mark.O else Mark.X })
  else Except.error g1

/-- The game object together with the number of `setTimeout` callbacks of
`handleCellClick` that are scheduled and have not run yet. -/
structure Page where
  game : TicTacToeGame
  timers : Nat
  deriving DecidableEq, Repr

/-- The state the constructor leaves. -/
def newTicTacToeGame : TicTacToeGame :=
  updateDisplay
    { board := emptyBoard, currentPlayer := Mark.X, gameMode := GameMode.pvp,
      gameActive := true, scores := { X := 0, O := 0, draw := 0 },
      isComputerThinking := false, gameStatus := "" }

/-- The page after `new TicTacToeGame()`. -/
def newPage : Page := { game := newTicTacToeGame, timers := 0 }

/-- The method `showComputerThinking()`. -/
def showComputerThinking (g : TicTacToeGame) : TicTacToeGame :=
  { g with gameStatus := "Computer is thinking..." }

/-- The method `handleCellClick(event)` for a click whose target carries the
array index `cellIndex`; `handleCellClickAt` covers every value of `parseInt`. -/
def handleCellClick (w : Page) (cellIndex : Nat) : Except Page Page :=
  if !w.game.gameActive || (Board.get w.game.board cellIndex).truthy
      || w.game.isComputerThinking then
    Except.ok w
  else
    match makeMove w.game cellIndex w.game.currentPlayer with
    | Except.error g => Except.error { w with game := g }
    | Except.ok g =>
      if g.gameActive && decide (g.gameMode = GameMode.pvc)
          && decide (g.currentPlayer = Mark.O) then
        Except.ok { game := showComputerThinking { g with isComputerThinking := true },
                    timers := w.timers + 1 }
      else Except.ok { w with game := g }

/-- The callback that `handleCellClick` passes to `setTimeout`, run when one
of the scheduled timers fires; `none` when the solver is out of fuel. -/
def computerTurn (fuel : Nat) (w : Page) : Option (Except Page Page) :=
  match getBestMove fuel w.game.board with
  | none => none
  | some (computerMove, board1) =>
    match makeMove { w.game with board := board1 } computerMove Mark.O with
    | Except.error g => some (Except.error { game := g, timers := w.timers - 1 })
    | Except.ok g =>
      some (Except.ok { game := { g with isComputerThinking := false },
                        timers := w.timers - 1 })

/-- The method `resetGame()`. It does not cancel a scheduled callback. -/
def resetGame (w : Page) : Page :=
  { w with game := updateDisplay ({ w.game with
      board := emptyBoard, currentPlayer := Mark.X, gameActive := true,
      isComputerThinking := false }) }

/-- The method `newGame()`. -/
def newGame (w : Page) : Page :=
  let w1 := resetGame w
  { w1 with game := { w1.game with scores := { X := 0, O := 0, draw := 0 } } }

/-- The method `handleModeChange(event)` for the button of mode `newMode`. -/
def handleModeChange (w : Page) (newMode : GameMode) : Page :=
  if newMode = w.game.gameMode then w
  else newGame { w with game := { w.game with gameMode := newMode } }

/-! ## The move entry point for every parsed index -/

/-- The value of `parseInt(event.target.dataset.index)`: NaN when the target of
the click carries no index (the symbol inside an occupied cell), or an integer:
`neg n` is the negative integer `-(n + 1)`, `nat n` the integer `n`. -/
inductive CellIndex where
  | nan
  | neg (n : Nat)
  | nat (n : Nat)
  deriving DecidableEq, Repr

/-- The array index that a key denotes: the integers from 0 to 2^32 - 2. Any
other key (NaN, a negative integer, an integer from 2^32 - 1 on) names a plain
property of the array object, and a write under it leaves the elements and the
length of the array alone. -/
def CellIndex.arrayIndex : CellIndex → Option Nat
  | CellIndex.nan => none
  | CellIndex.neg _ => none
  | CellIndex.nat n => if n < 4294967295 then some n else none

/-- The page, and the properties of the array object `this.board` that are
stored under keys that are not array indices (the latest write first). -/
structure PageObject where
  page : Page
  boardProps : List (CellIndex × Cell)
  deriving DecidableEq, Repr

/-- The read `this.board[cellIndex]` for any parsed index. -/
def PageObject.read (s : PageObject) (cellIndex : CellIndex) : Cell :=
  match cellIndex.arrayIndex with
  | some i => Board.get s.page.game.board i
  | none =>
    match s.boardProps.lookup cellIndex with
    | some c => c
    | none => Cell.undef

/-- The write `this.board[cellIndex] = c` for any parsed index. -/
def PageObject.write (s : PageObject) (cellIndex : CellIndex) (c : Cell) : PageObject :=
  match cellIndex.arrayIndex with
  | some i =>
    { s with page := { s.page with game := { s.page.game with
        board := Board.set s.page.game.board i c } } }
  | none => { s with boardProps := (cellIndex, c) :: s.boardProps }

/-- The method `makeMove(cellIndex, player)` for any parsed index. Under an array
index it is `makeMove`. Under any other key the write is a property of the array
object; the page (cells 0 to 8, see `cellExists`) has no cell for such a key, so
the next statement throws. -/
def makeMoveAt (s : PageObject) (cellIndex : CellIndex) (player : Mark) :
    Except PageObject PageObject :=
  match cellIndex.arrayIndex with
  | some i =>
    match makeMove s.page.game i player with
    | Except.error g => Except.error { s with page := { s.page with game := g } }
    | Except.ok g => Except.ok { s with page := { s.page with game := g } }
  | none => Except.error (s.write cellIndex (Cell.mark player))

/-- The method `handleCellClick(event)` for any value of
`parseInt(event.target.dataset.index)`. -/
def handleCellClickAt (s : PageObject) (cellIndex : CellIndex) :
    Except PageObject PageObject :=
  if !s.page.game.gameActive || (s.read cellIndex).truthy
      || s.page.game.isComputerThinking then
    Except.ok s
  else
    match makeMoveAt s cellIndex s.page.game.currentPlayer with
    | Except.error s1 => Except.error s1
    | Except.ok s1 =>
      if s1.page.game.gameActive && decide (s1.page.game.gameMode = GameMode.pvc)
          && decide (s1.page.game.currentPlayer = Mark.O) then
        Except.ok { s1 with page :=
          { game := showComputerThinking { s1.page.game with isComputerThinking := true },
            timers := s1.page.timers + 1 } }
      else Except.ok s1

/-- The page after `new TicTacToeGame()`, the array `this.board` as created. -/
def newPageObject : PageObject := { page := newPage, boardProps := [] }

/-! ## Predicates of the specification -/

/-- The mark `m` holds the three cells of the pattern `p`. -/
def holdsLine (board : Board) (m : Mark) (p : Nat × Nat × Nat) : Prop :=
  Board.get board p.1 = Cell.mark m ∧ Board.get board p.2.1 = Cell.mark m ∧
    Board.get board p.2.2 = Cell.mark m

instance (board : Board) (m : Mark) (p : Nat × Nat × Nat) : Decidable (holdsLine board m p) := by
  unfold holdsLine; infer_instance

/-- Some one of the eight winning lines holds three `m`. -/
def hasLine (board : Board) (m : Mark) : Prop :=
  ∃ p ∈ winningPatterns, holdsLine board m p

instance (board : Board) (m : Mark) : Decidable (hasLine board m) := by
  unfold hasLine; infer_instance

/-- No cell of the board is empty. -/
def noEmptyCell (board : Board) : Prop := ∀ c ∈ board, c ≠ Cell.empty

instance (board : Board) : Decidable (noEmptyCell board) := by
  unfold noEmptyCell; infer_instance

/-! ## Concrete scenarios -/

/-- The game of scenario 2: the board `[X,X,_,O,O,_,_,_,_]`, X to move. -/
def scenarioWin : TicTacToeGame :=
  { newTicTacToeGame with
    board := [Cell.mark Mark.X, Cell.mark Mark.X, Cell.empty,
              Cell.mark Mark.O, Cell.mark Mark.O, Cell.empty,
              Cell.empty, Cell.empty, Cell.empty] }

/-- The game of scenario 3 before its filling move: the board
`[X,O,X,O,X,O,O,X,_]`, O to move. -/
def scenarioDraw : TicTacToeGame :=
  { newTicTacToeGame with
    currentPlayer := Mark.O
    board := [Cell.mark Mark.X, Cell.mark Mark.O, Cell.mark Mark.X,
              Cell.mark Mark.O, Cell.mark Mark.X, Cell.mark Mark.O,
              Cell.mark Mark.O, Cell.mark Mark.X, Cell.empty] }

/-- The number of empty cells of the board: each level of the search fills one. -/
def emptyCount (board : Board) : Nat := board.count Cell.empty

/-! ## An evaluator for the solver on unpacked boards

The same search as `minimax` and `getBestMove`, written so that it can be
evaluated inside a proof: the nine cells are taken apart once per position, the
loop over the cells is unrolled, every intermediate number is evaluated before it
is passed on, and scores are coded as naturals. `minimax_fast` and
`getBestMove_fast` below prove that it computes what the solver computes. -/

/-- Evaluate `n`, then continue with its value. -/
def strict (n : Nat) (f : Nat → Nat) : Nat :=
  match n with
  | 0 => f 0
  | k + 1 => f (Nat.succ k)

/-- The code of a score: 0 for -Infinity, 22 and above for Infinity, `v + 11`
for the integer `v`. -/
def Score.ofCode (n : Nat) : Score :=
  if n = 0 then Score.negInf else if 22 ≤ n then Score.posInf else Score.fin ((n : Int) - 11)

/-- One pattern of `checkWinnerForBoard` on the three cells it reads. -/
def lineOf : Cell → Cell → Cell → Option Mark → Option Mark
  | Cell.mark Mark.X, Cell.mark Mark.X, Cell.mark Mark.X, _ => some Mark.X
  | Cell.mark Mark.O, Cell.mark Mark.O, Cell.mark Mark.O, _ => some Mark.O
  | _, _, _, next => next

/-- The method `checkWinnerForBoard` on the nine cells. -/
def fastWinner (c0 c1 c2 c3 c4 c5 c6 c7 c8 : Cell) : Option Mark :=
  lineOf c0 c1 c2 (lineOf c3 c4 c5 (lineOf c6 c7 c8 (lineOf c0 c3 c6 (lineOf c1 c4 c7 (lineOf c2 c5 c8 (lineOf c0 c4 c8 (lineOf c2 c4 c6 none)))))))

/-- One cell of `isBoardFullForBoard`. -/
def notEmpty : Cell → Bool → Bool
  | Cell.empty, _ => false
  | _, next => next

/-- The method `isBoardFullForBoard` on the nine cells. -/
def fastFull (c0 c1 c2 c3 c4 c5 c6 c7 c8 : Cell) : Bool :=
  notEmpty c0 (notEmpty c1 (notEmpty c2 (notEmpty c3 (notEmpty c4 (notEmpty c5 (notEmpty c6 (notEmpty c7 (notEmpty c8 true))))))))

/-- The update of `bestScore` on codes: the larger when maximizing, the smaller
otherwise. -/
def fastPick (isMax : Bool) (best v : Nat) : Nat :=
  cond isMax (Nat.add best (Nat.sub v best)) (Nat.sub best (Nat.sub best v))

/-- One iteration of the loop of `minimax` on the cell `c`: `v` is the score of
the recursive call, `next` the rest of the loop. -/
def fastCell (c : Cell) (isMax : Bool) (best : Nat) (v : Unit → Nat) (next : Nat → Nat) : Nat :=
  match c with
  | Cell.empty => strict (fastPick isMax best (v ())) next
  | _ => next best

/-- The loop of `minimax` on the nine cells, placing the cell `p`. -/
def fastLoop (rc : Board → Nat → Bool → Nat) (p : Cell) (isMax nm : Bool)
    (c0 c1 c2 c3 c4 c5 c6 c7 c8 : Cell) (d init : Nat) : Nat :=
  fastCell c0 isMax init (fun _ => rc [p, c1, c2, c3, c4, c5, c6, c7, c8] d nm) fun b =>
  fastCell c1 isMax b (fun _ => rc [c0, p, c2, c3, c4, c5, c6, c7, c8] d nm) fun b =>
  fastCell c2 isMax b (fun _ => rc [c0, c1, p, c3, c4, c5, c6, c7, c8] d nm) fun b =>
  fastCell c3 isMax b (fun _ => rc [c0, c1, c2, p, c4, c5, c6, c7, c8] d nm) fun b =>
  fastCell c4 isMax b (fun _ => rc [c0, c1, c2, c3, p, c5, c6, c7, c8] d nm) fun b =>
  fastCell c5 isMax b (fun _ => rc [c0, c1, c2, c3, c4, p, c6, c7, c8] d nm) fun b =>
  fastCell c6 isMax b (fun _ => rc [c0, c1, c2, c3, c4, c5, p, c7, c8] d nm) fun b =>
  fastCell c7 isMax b (fun _ => rc [c0, c1, c2, c3, c4, c5, c6, p, c8] d nm) fun b =>
  fastCell c8 isMax b (fun _ => rc [c0, c1, c2, c3, c4, c5, c6, c7, p] d nm) fun b =>
  b

/-- The body of `minimax`, `rc` being the recursive call. -/
def fastStep (rc : Board → Nat → Bool → Nat) (board : Board) (depth : Nat) (isMax : Bool) : Nat :=
  match board with
  | [c0, c1, c2, c3, c4, c5, c6, c7, c8] =>
    match fastWinner c0 c1 c2 c3 c4 c5 c6 c7 c8 with
    | some Mark.O => Nat.sub 21 depth
    | some Mark.X => Nat.succ depth
    | none =>
      cond (fastFull c0 c1 c2 c3 c4 c5 c6 c7 c8) 11
        (strict (Nat.succ depth) fun d =>
          cond isMax
            (fastLoop rc (Cell.mark Mark.O) true false c0 c1 c2 c3 c4 c5 c6 c7 c8 d 0)
            (fastLoop rc (Cell.mark Mark.X) false true c0 c1 c2 c3 c4 c5 c6 c7 c8 d 22))
  | _ => 0

/-- The evaluator of `minimax` with `fuel` levels of recursion. -/
def fastMinimax : Nat → Board → Nat → Bool → Nat
  | 0 => fun _ _ _ => 0
  | fuel + 1 => fastStep (fastMinimax fuel)

/-- One iteration of the loop of `getBestMove` on the cell `c` of index `i`. -/
def fastBestCell (c : Cell) (i best move : Nat) (v : Unit → Nat) (next : Nat → Nat → Nat) : Nat :=
  match c with
  | Cell.empty => strict (v ()) fun s => cond (Nat.ble (Nat.succ best) s) (next s i) (next best move)
  | _ => next best move

/-- The evaluator of `getBestMove`, `rc` being the evaluator of `minimax`. -/
def fastBestMove (rc : Board → Nat → Bool → Nat) (board : Board) : Nat :=
  match board with
  | [c0, c1, c2, c3, c4, c5, c6, c7, c8] =>
    fastBestCell c0 0 0 0 (fun _ => rc [Cell.mark Mark.O, c1, c2, c3, c4, c5, c6, c7, c8] 0 false) fun b m =>
    fastBestCell c1 1 b m (fun _ => rc [c0, Cell.mark Mark.O, c2, c3, c4, c5, c6, c7, c8] 0 false) fun b m =>
    fastBestCell c2 2 b m (fun _ => rc [c0, c1, Cell.mark Mark.O, c3, c4, c5, c6, c7, c8] 0 false) fun b m =>
    fastBestCell c3 3 b m (fun _ => rc [c0, c1, c2, Cell.mark Mark.O, c4, c5, c6, c7, c8] 0 false) fun b m =>
    fastBestCell c4 4 b m (fun _ => rc [c0, c1, c2, c3, Cell.mark Mark.O, c5, c6, c7, c8] 0 false) fun b m =>
    fastBestCell c5 5 b m (fun _ => rc [c0, c1, c2, c3, c4, Cell.mark Mark.O, c6, c7, c8] 0 false) fun b m =>
    fastBestCell c6 6 b m (fun _ => rc [c0, c1, c2, c3, c4, c5, Cell.mark Mark.O, c7, c8] 0 false) fun b m =>
    fastBestCell c7 7 b m (fun _ => rc [c0, c1, c2, c3, c4, c5, c6, Cell.mark Mark.O, c8] 0 false) fun b m =>
    fastBestCell c8 8 b m (fun _ => rc [c0, c1, c2, c3, c4, c5, c6, c7, Cell.mark Mark.O] 0 false) fun _ m =>
    m
  | _ => 0

/-- The loop of `minimax` on codes and without the board threaded through: `R`
is the code that the recursive call gives, `p` the cell placed. -/
def codeLoop (R : Board → Nat) (p : Cell) (isMax : Bool) : Nat → Nat → Nat → Board → Nat
  | 0, _, best, _ => best
  | n + 1, i, best, board =>
    if Board.get board i = Cell.empty then
      codeLoop R p isMax n (i + 1) (fastPick isMax best (R (Board.set board i p))) board
    else codeLoop R p isMax n (i + 1) best board

/-- The loop of `getBestMove` on codes and without the board threaded through. -/
def codeBestLoop (R : Board → Nat) : Nat → Nat → Nat → Nat → Board → Nat
  | 0, _, _, move, _ => move
  | n + 1, i, best, move, board =>
    if Board.get board i = Cell.empty then
      if best < R (Board.set board i (Cell.mark Mark.O)) then
        codeBestLoop R n (i + 1) (R (Board.set board i (Cell.mark Mark.O))) i board
      else codeBestLoop R n (i + 1) best move board
    else codeBestLoop R n (i + 1) best move board

/-! ## Games of the solver against every play of X -/

/-- The games in which X moves first from the empty board, plays any empty cell
at each of its turns, and O replies each time with the index that `getBestMove`
returns on the current board, applied with `makeMove`. -/
inductive Play : TicTacToeGame → Prop where
  | start (mode : GameMode) : Play (handleModeChange newPage mode).game
  | xMove (g g' : TicTacToeGame) (i : Nat) :
      Play g → g.gameActive = true → g.currentPlayer = Mark.X →
      Board.get g.board i = Cell.empty →
      makeMove g i Mark.X = Except.ok g' → Play g'
  | oMove (g g' : TicTacToeGame) (fuel k : Nat) (board1 : Board) :
      Play g → g.gameActive = true → g.currentPlayer = Mark.O →
      getBestMove fuel g.board = some (k, board1) →
      makeMove { g with board := board1 } k Mark.O = Except.ok g' → Play g'

/-- The status check of `makeMove` on the board after a move, for the search
through all games: X must not have won; when the game goes on, `next` decides. -/
def afterMove (board : Board) (next : Board → Bool) : Bool :=
  match board with
  | [c0, c1, c2, c3, c4, c5, c6, c7, c8] =>
    match fastWinner c0 c1 c2 c3 c4 c5 c6 c7 c8 with
    | some Mark.X => false
    | some Mark.O => true
    | none => cond (fastFull c0 c1 c2 c3 c4 c5 c6 c7 c8) true (next [c0, c1, c2, c3, c4, c5, c6, c7, c8])
  | _ => false

/-- The reply of O on `board`, at the index that the evaluator `rc` gives. -/
def replyOk (rc : Board → Nat → Bool → Nat) (board : Board) (next : Board → Bool) : Bool :=
  afterMove (Board.set board (fastBestMove rc board) (Cell.mark Mark.O)) next

/-- One move of X: on an empty cell `v` must hold, and `rest` in any case. -/
def tryCell (c : Cell) (v : Unit → Bool) (rest : Bool) : Bool :=
  match c with
  | Cell.empty => and (v ()) rest
  | _ => rest

/-- The search through all games from `board` with X to move, at most `n` moves
of X deep: true when X wins none of them. -/
def checkPlay (rc : Board → Nat → Bool → Nat) : Nat → Board → Bool
  | 0, _ => false
  | n + 1, board =>
    match board with
    | [c0, c1, c2, c3, c4, c5, c6, c7, c8] =>
      tryCell c0 (fun _ => afterMove [Cell.mark Mark.X, c1, c2, c3, c4, c5, c6, c7, c8]
        (fun b => replyOk rc b (checkPlay rc n))) (
      tryCell c1 (fun _ => afterMove [c0, Cell.mark Mark.X, c2, c3, c4, c5, c6, c7, c8]
        (fun b => replyOk rc b (checkPlay rc n))) (
      tryCell c2 (fun _ => afterMove [c0, c1, Cell.mark Mark.X, c3, c4, c5, c6, c7, c8]
        (fun b => replyOk rc b (checkPlay rc n))) (
      tryCell c3 (fun _ => afterMove [c0, c1, c2, Cell.mark Mark.X, c4, c5, c6, c7, c8]
        (fun b => replyOk rc b (checkPlay rc n))) (
      tryCell c4 (fun _ => afterMove [c0, c1, c2, c3, Cell.mark Mark.X, c5, c6, c7, c8]
        (fun b => replyOk rc b (checkPlay rc n))) (
      tryCell c5 (fun _ => afterMove [c0, c1, c2, c3, c4, Cell.mark Mark.X, c6, c7, c8]
        (fun b => replyOk rc b (checkPlay rc n))) (
      tryCell c6 (fun _ => afterMove [c0, c1, c2, c3, c4, c5, Cell.mark Mark.X, c7, c8]
        (fun b => replyOk rc b (checkPlay rc n))) (
      tryCell c7 (fun _ => afterMove [c0, c1, c2, c3, c4, c5, c6, Cell.mark Mark.X, c8]
        (fun b => replyOk rc b (checkPlay rc n))) (
      tryCell c8 (fun _ => afterMove [c0, c1, c2, c3, c4, c5, c6, c7, Cell.mark Mark.X]
        (fun b => replyOk rc b (checkPlay rc n)))
        true))))))))
    | _ => false

/-- What the search establishes about a game: X has no win on record; an
active game has no winner and an empty cell, and the search succeeds from its
board for the player to move; an ended game is a draw or a win of O. -/
def PlayInv (g : TicTacToeGame) : Prop :=
  g.board.length = 9 ∧ g.scores.X = 0 ∧
  (g.gameActive = true →
    checkWinnerForBoard g.board = none ∧ isBoardFullForBoard g.board = false ∧
    (g.currentPlayer = Mark.X → ∃ n, checkPlay (fastMinimax 9) n g.board = true) ∧
    (g.currentPlayer = Mark.O →
      ∃ n, replyOk (fastMinimax 9) g.board (checkPlay (fastMinimax 9) n) = true)) ∧
  (g.gameActive = false →
    g.gameStatus = "It's a draw!" ∨ g.gameStatus = getPlayerName g Mark.O ++ " wins!")

/-- The board after X has played the corner: `[X,_,_,_,_,_,_,_,_]`. -/
def cornerBoard : Board :=
  [Cell.mark Mark.X, Cell.empty, Cell.empty, Cell.empty, Cell.empty, Cell.empty,
   Cell.empty, Cell.empty, Cell.empty]

/-- The page once the mode "against the computer" is chosen on the new page. -/
def pvcPage : Page := handleModeChange newPage GameMode.pvc

/-- The game on `pvcPage` after X has played the corner, O to move. -/
def cornerGame : TicTacToeGame :=
  { pvcPage.game with board := cornerBoard, currentPlayer := Mark.O,
                      gameStatus := "Computer's turn" }

/-- The page after X has clicked cell 0 on `pvcPage`: the computer turn is
scheduled. -/
def thinkingPage : Page :=
  { game := { cornerGame with isComputerThinking := true,
                              gameStatus := "Computer is thinking..." },
    timers := 1 }

/-- The page after `resetGame` on `thinkingPage`: the fresh game of `pvcPage`,
with the callback still scheduled. -/
def resetPage : Page := { pvcPage with timers := 1 }

/-- The page after the scheduled callback has run on `resetPage`. -/
def stalePage : Page :=
  { game := { pvcPage.game with
      board := [Cell.mark Mark.O, Cell.empty, Cell.empty, Cell.empty, Cell.empty,
                Cell.empty, Cell.empty, Cell.empty, Cell.empty],
      currentPlayer := Mark.O, gameStatus := "Computer's turn" },
    timers := 0 }

/-- Equality of the results of a call that may throw is decidable. -/
instance instDecidableEqExcept {ε α : Type} [DecidableEq ε] [DecidableEq α] :
    DecidableEq (Except ε α)
  | Except.ok a, Except.ok b =>
    if h : a = b then isTrue (congrArg Except.ok h) else isFalse (fun h' => h (Except.ok.inj h'))
  | Except.error a, Except.error b =>
    if h : a = b then isTrue (congrArg Except.error h)
    else isFalse (fun h' => h (Except.error.inj h'))
  | Except.ok _, Except.error _ => isFalse (fun h => Except.noConfusion h)
  | Except.error _, Except.ok _ => isFalse (fun h => Except.noConfusion h)

/-- A game replayed from `g` on the moves of X in `xMoves`: each is made with
`makeMove` on an empty cell, and while the game goes on O replies at the index
that the evaluator gives; `none` when a move is not legal or a move is left over
after the game has ended. -/
def replay : TicTacToeGame → List Nat → Option TicTacToeGame
  | g, [] => some g
  | g, i :: rest =>
    if g.gameActive = true ∧ g.currentPlayer = Mark.X ∧ Board.get g.board i = Cell.empty then
      match makeMove g i Mark.X with
      | Except.error _ => none
      | Except.ok g1 =>
        if g1.gameActive = true ∧ g1.currentPlayer = Mark.O then
          match makeMove g1 (fastBestMove (fastMinimax 9) g1.board) Mark.O with
          | Except.error _ => none
          | Except.ok g2 => replay g2 rest
        else if rest = [] then some g1 else none
    else none

/-- The game on `pvcPage` after X has played the corner and O the centre. -/
def centreGame : TicTacToeGame :=
  { pvcPage.game with
    board := [Cell.mark Mark.X, Cell.empty, Cell.empty, Cell.empty, Cell.mark Mark.O,
              Cell.empty, Cell.empty, Cell.empty, Cell.empty],
    gameStatus := "Your turn" }

/-- The game on `pvcPage` ended as a draw on the board `[X,O,X,X,O,O,O,X,X]`. -/
def drawnGame : TicTacToeGame :=
  { pvcPage.game with
    board := [Cell.mark Mark.X, Cell.mark Mark.O, Cell.mark Mark.X,
              Cell.mark Mark.X, Cell.mark Mark.O, Cell.mark Mark.O,
              Cell.mark Mark.O, Cell.mark Mark.X, Cell.mark Mark.X],
    gameActive := false,
    scores := { X := 0, O := 0, draw := 1 },
    gameStatus := "It's a draw!" }

/-! ## Board reads and writes -/

theorem Board.get_nil (i : Nat) : Board.get [] i = Cell.undef := by
  cases i <;> rfl

theorem Board.get_set_nil (i j : Nat) (c : Cell) :
    Board.get (Board.set [] i c) j = if j = i then c else Cell.undef := by
  induction i generalizing j with
  | zero => cases j <;> simp [Board.get, Board.set]
  | succ i ih => cases j <;> simp [Board.get, Board.set, ih]

theorem Board.get_set (board : Board) (i j : Nat) (c : Cell) :
    Board.get (Board.set board i c) j = if j = i then c else Board.get board j := by
  induction board generalizing i j with
  | nil => rw [Board.get_set_nil, Board.get_nil]
  | cons d rest ih =>
    cases i <;> cases j <;> simp [Board.get, Board.set, ih]

theorem Board.get_set_eq (board : Board) (i : Nat) (c : Cell) :
    Board.get (Board.set board i c) i = c := by
  simp [Board.get_set]

theorem Board.get_set_ne (board : Board) (i j : Nat) (c : Cell) (h : j ≠ i) :
    Board.get (Board.set board i c) j = Board.get board j := by
  simp [Board.get_set, h]

theorem Board.lt_length_of_get (board : Board) (i : Nat) (h : Board.get board i ≠ Cell.undef) :
    i < board.length := by
  induction board generalizing i with
  | nil => simp [Board.get_nil] at h
  | cons d rest ih =>
    cases i with
    | zero => simp
    | succ i => simp only [Board.get] at h; simpa using ih i h

theorem Board.set_set_of_get (board : Board) (i : Nat) (c d : Cell)
    (h : Board.get board i = d) (hd : d ≠ Cell.undef) :
    Board.set (Board.set board i c) i d = board := by
  induction board generalizing i with
  | nil => subst h; simp [Board.get_nil] at hd
  | cons e rest ih =>
    cases i with
    | zero => simp only [Board.get] at h; simp [Board.set, h]
    | succ i => simp only [Board.get] at h; simp [Board.set, ih i h]

theorem Board.length_set (board : Board) (i : Nat) (c : Cell) (h : i < board.length) :
    (Board.set board i c).length = board.length := by
  induction board generalizing i with
  | nil => simp at h
  | cons e rest ih =>
    cases i with
    | zero => simp [Board.set]
    | succ i => simp [Board.set, ih i (by simpa using h)]

theorem Board.length_set_ge (board : Board) (i : Nat) (c : Cell) (h : board.length ≤ i) :
    (Board.set board i c).length = i + 1 := by
  induction board generalizing i with
  | nil =>
    induction i with
    | zero => simp [Board.set]
    | succ i ih => simp [Board.set, ih]
  | cons e rest ih =>
    cases i with
    | zero => simp at h
    | succ i => simp [Board.set, ih i (by simpa using h)]

/-! ## Win and draw detection -/

theorem checkWinnerLoop_step (board : Board) (a b c : Nat) (rest : List (Nat × Nat × Nat)) :
    checkWinnerLoop board ((a, b, c) :: rest) =
      if holdsLine board Mark.X (a, b, c) then some Mark.X
      else if holdsLine board Mark.O (a, b, c) then some Mark.O
      else checkWinnerLoop board rest := by
  simp only [checkWinnerLoop, holdsLine]
  split
  · next m h => cases m <;> simp [h, eq_comm]
  · next h =>
    have hX : Board.get board a ≠ Cell.mark Mark.X := h Mark.X
    have hO : Board.get board a ≠ Cell.mark Mark.O := h Mark.O
    simp [hX, hO]

theorem checkWinnerLoop_eq_none (board : Board) (ps : List (Nat × Nat × Nat)) :
    checkWinnerLoop board ps = none ↔ ∀ p ∈ ps, ∀ m, ¬ holdsLine board m p := by
  induction ps with
  | nil => simp [checkWinnerLoop]
  | cons p rest ih =>
    obtain ⟨a, b, c⟩ := p
    rw [checkWinnerLoop_step]
    constructor
    · intro h
      split_ifs at h with h1 h2
      intro p hp m
      rcases List.mem_cons.1 hp with rfl | hp
      · cases m <;> assumption
      · exact ih.1 h p hp m
    · intro h
      have hX := h (a, b, c) (List.mem_cons_self _ _) Mark.X
      have hO := h (a, b, c) (List.mem_cons_self _ _) Mark.O
      rw [if_neg hX, if_neg hO]
      exact ih.2 (fun p hp m => h p (List.mem_cons_of_mem _ hp) m)

theorem checkWinnerLoop_eq_some (board : Board) (ps : List (Nat × Nat × Nat)) (m : Mark)
    (h : checkWinnerLoop board ps = some m) : ∃ p ∈ ps, holdsLine board m p := by
  induction ps with
  | nil => simp [checkWinnerLoop] at h
  | cons p rest ih =>
    obtain ⟨a, b, c⟩ := p
    rw [checkWinnerLoop_step] at h
    split_ifs at h with h1 h2
    · cases h; exact ⟨_, List.mem_cons_self _ _, h1⟩
    · cases h; exact ⟨_, List.mem_cons_self _ _, h2⟩
    · obtain ⟨p, hp, hl⟩ := ih h
      exact ⟨p, List.mem_cons_of_mem _ hp, hl⟩

theorem isBoardFullForBoard_iff (board : Board) :
    isBoardFullForBoard board = true ↔ noEmptyCell board := by
  simp [isBoardFullForBoard, noEmptyCell]

/-- A line of another mark that is there after `m` is written at `i` was there before. -/
theorem holdsLine_of_set (board : Board) (i : Nat) (m n : Mark) (p : Nat × Nat × Nat)
    (hnm : n ≠ m) (h : holdsLine (Board.set board i (Cell.mark m)) n p) :
    holdsLine board n p := by
  have key : ∀ j, Board.get (Board.set board i (Cell.mark m)) j = Cell.mark n →
      Board.get board j = Cell.mark n := by
    intro j hj
    rw [Board.get_set] at hj
    split_ifs at hj with hji
    · exact absurd (Cell.mark.inj hj).symm hnm
    · exact hj
  exact ⟨key _ h.1, key _ h.2.1, key _ h.2.2⟩

theorem checkWinnerLoop_set (board : Board) (i : Nat) (m : Mark)
    (hno : ∀ n, ¬ hasLine board n) :
    checkWinnerLoop (Board.set board i (Cell.mark m)) winningPatterns =
      if hasLine (Board.set board i (Cell.mark m)) m then some m else none := by
  have other : ∀ n, n ≠ m → ∀ p ∈ winningPatterns,
      ¬ holdsLine (Board.set board i (Cell.mark m)) n p :=
    fun n hnm p hp hl => hno n ⟨p, hp, holdsLine_of_set board i m n p hnm hl⟩
  split_ifs with h
  · cases hc : checkWinnerLoop (Board.set board i (Cell.mark m)) winningPatterns with
    | none =>
      obtain ⟨p, hp, hl⟩ := h
      exact absurd hl ((checkWinnerLoop_eq_none _ _).1 hc p hp m)
    | some n =>
      obtain ⟨p, hp, hl⟩ := checkWinnerLoop_eq_some _ _ _ hc
      by_cases hnm : n = m
      · rw [hnm]
      · exact absurd hl (other n hnm p hp)
  · rw [checkWinnerLoop_eq_none]
    intro p hp n hl
    by_cases hnm : n = m
    · subst hnm; exact h ⟨p, hp, hl⟩
    · exact other n hnm p hp hl

/-! ## The game engine -/

theorem handleGameEnd_board (g : TicTacToeGame) (r : GameResult) :
    (handleGameEnd g r).board = g.board := by
  rcases r with _ | m
  · rfl
  · cases m <;> rfl

theorem updateDisplay_fields (g : TicTacToeGame) :
    (updateDisplay g).board = g.board ∧ (updateDisplay g).currentPlayer = g.currentPlayer ∧
    (updateDisplay g).gameMode = g.gameMode ∧ (updateDisplay g).gameActive = g.gameActive ∧
    (updateDisplay g).scores = g.scores ∧
    (updateDisplay g).isComputerThinking = g.isComputerThinking := by
  unfold updateDisplay
  split_ifs <;> simp

/-- C2: on an active game whose board has no completed line, `makeMove(i, m)` on
an empty cell `i` in 0..8 succeeds, writes `m` at `i`, and gives exactly this
status: the game is ended with `m` reported as the winner (status text and
score of `m`) when a winning line holds three `m` on the new board; otherwise
it is ended as a draw when no cell is empty; otherwise it stays in progress. -/
theorem makeMove_status (g : TicTacToeGame) (i : Nat) (m : Mark)
    (hactive : g.gameActive = true) (hno : ∀ n, ¬ hasLine g.board n)
    (hi : i < 9) (hempty : Board.get g.board i = Cell.empty) :
    ∃ g', makeMove g i m = Except.ok g' ∧
      g'.board = Board.set g.board i (Cell.mark m) ∧
      (hasLine g'.board m →
        g'.gameActive = false ∧ g'.gameStatus = getPlayerName g m ++ " wins!" ∧
        g'.scores = (match m with
          | Mark.X => { g.scores with X := g.scores.X + 1 }
          | Mark.O => { g.scores with O := g.scores.O + 1 })) ∧
      (¬ hasLine g'.board m → noEmptyCell g'.board →
        g'.gameActive = false ∧ g'.gameStatus = "It's a draw!" ∧
        g'.scores = { g.scores with draw := g.scores.draw + 1 }) ∧
      (¬ hasLine g'.board m → ¬ noEmptyCell g'.board →
        g'.gameActive = true ∧ g'.scores = g.scores) := by
  have _ := hempty
  have hex : cellExists i = true := by simp [cellExists, hi]
  have hw := checkWinnerLoop_set g.board i m hno
  unfold makeMove
  simp only [hex, if_true, checkWinner]
  by_cases hl : hasLine (Board.set g.board i (Cell.mark m)) m
  · rw [if_pos hl] at hw
    simp only [hw]
    refine ⟨_, rfl, ?_, ?_, ?_, ?_⟩
    · rw [handleGameEnd_board]
    · intro _
      cases m <;> simp [handleGameEnd, getPlayerName]
    · intro h; rw [handleGameEnd_board] at h; exact absurd hl h
    · intro h; rw [handleGameEnd_board] at h; exact absurd hl h
  · rw [if_neg hl] at hw
    simp only [hw]
    by_cases hf : noEmptyCell (Board.set g.board i (Cell.mark m))
    · have hfull : isBoardFull { g with board := Board.set g.board i (Cell.mark m) } = true :=
        (isBoardFullForBoard_iff _).2 hf
      simp only [hfull, if_true]
      refine ⟨_, rfl, ?_, ?_, ?_, ?_⟩
      · rw [handleGameEnd_board]
      · intro h; rw [handleGameEnd_board] at h; exact absurd h hl
      · intro _ _; simp [handleGameEnd]
      · intro _ h; rw [handleGameEnd_board] at h; exact absurd hf h
    · have hfull : isBoardFull { g with board := Board.set g.board i (Cell.mark m) } = false := by
        rw [Bool.eq_false_iff]
        exact fun h => hf ((isBoardFullForBoard_iff _).1 h)
      simp only [hfull]
      refine ⟨_, rfl, ?_, ?_, ?_, ?_⟩
      · simp [(updateDisplay_fields _).1]
      · intro h; simp only [(updateDisplay_fields _).1] at h; exact absurd h hl
      · intro _ h; simp only [(updateDisplay_fields _).1] at h; exact absurd h hf
      · intro _ _
        simp [(updateDisplay_fields _).2.2.2.1, (updateDisplay_fields _).2.2.2.2.1, hactive]

theorem makeMove_status_witness :
    (∃ g', makeMove scenarioWin 2 Mark.X = Except.ok g' ∧
      g'.board = [Cell.mark Mark.X, Cell.mark Mark.X, Cell.mark Mark.X,
              Cell.mark Mark.O, Cell.mark Mark.O, Cell.empty,
              Cell.empty, Cell.empty, Cell.empty] ∧
      g'.gameActive = false ∧ g'.gameStatus = "Player 1 wins!" ∧
      g'.scores = { X := 1, O := 0, draw := 0 }) ∧
    (∃ g', makeMove scenarioDraw 8 Mark.O = Except.ok g' ∧
      g'.board = [Cell.mark Mark.X, Cell.mark Mark.O, Cell.mark Mark.X,
              Cell.mark Mark.O, Cell.mark Mark.X, Cell.mark Mark.O,
              Cell.mark Mark.O, Cell.mark Mark.X, Cell.mark Mark.O] ∧
      g'.gameActive = false ∧ g'.gameStatus = "It's a draw!" ∧
      g'.scores = { X := 0, O := 0, draw := 1 }) := by
  constructor
  · obtain ⟨g', h, hb, hwin, _, _⟩ := makeMove_status scenarioWin 2 Mark.X rfl
      (fun n => by cases n <;> decide) (by decide) rfl
    have hl : hasLine g'.board Mark.X := by rw [hb]; decide
    exact ⟨g', h, hb, (hwin hl).1, (hwin hl).2.1, (hwin hl).2.2⟩
  · obtain ⟨g', h, hb, _, hdraw, _⟩ := makeMove_status scenarioDraw 8 Mark.O rfl
      (fun n => by cases n <;> decide) (by decide) rfl
    have hl : ¬ hasLine g'.board Mark.O := by rw [hb]; decide
    have hf : noEmptyCell g'.board := by rw [hb]; decide
    exact ⟨g', h, hb, (hdraw hl hf).1, (hdraw hl hf).2.1, (hdraw hl hf).2.2⟩

/-- C3: a click on a cell that already holds a mark is ignored: `handleCellClick`
returns with the page (board, current player, status, scores and everything
else) exactly as it was. -/
theorem handleCellClick_occupied (w : Page) (i : Nat) (m : Mark)
    (hocc : Board.get w.game.board i = Cell.mark m) :
    handleCellClick w i = Except.ok w := by
  simp [handleCellClick, hocc, Cell.truthy]

theorem handleCellClick_occupied_witness :
    Board.get ({ game := scenarioWin, timers := 0 } : Page).game.board 3 = Cell.mark Mark.O ∧
    handleCellClick { game := scenarioWin, timers := 0 } 3 =
      Except.ok { game := scenarioWin, timers := 0 } :=
  ⟨rfl, handleCellClick_occupied { game := scenarioWin, timers := 0 } 3 Mark.O rfl⟩

/-- C4: once the game has ended (`gameActive` false, as `handleGameEnd` leaves
it), a click with any index at all is ignored: `handleCellClick` returns with
the page exactly as it was. -/
theorem handleCellClick_ended (w : Page) (i : Nat) (hended : w.game.gameActive = false) :
    handleCellClick w i = Except.ok w := by
  simp [handleCellClick, hended]

theorem handleCellClick_ended_witness :
    (handleGameEnd scenarioWin (GameResult.winner Mark.X)).gameActive = false ∧
    handleCellClick
        { game := handleGameEnd scenarioWin (GameResult.winner Mark.X), timers := 0 } 11 =
      Except.ok { game := handleGameEnd scenarioWin (GameResult.winner Mark.X), timers := 0 } :=
  ⟨rfl, handleCellClick_ended
    { game := handleGameEnd scenarioWin (GameResult.winner Mark.X), timers := 0 } 11 rfl⟩

/-- C7: from every state `resetGame` leaves the board with nine empty cells, the
game active with the turn text shown (in progress), X to move, and the scores
as they were. -/
theorem resetGame_spec (w : Page) :
    (resetGame w).game.board = List.replicate 9 Cell.empty ∧
    (resetGame w).game.gameActive = true ∧
    (resetGame w).game.gameStatus =
      (if w.game.gameMode = GameMode.pvc then "Your turn" else "Player X's turn") ∧
    (resetGame w).game.currentPlayer = Mark.X ∧
    (resetGame w).game.scores = w.game.scores := by
  refine ⟨?_, ?_, ?_, ?_, ?_⟩ <;> simp only [resetGame, updateDisplay, if_true] <;>
    split_ifs <;> rfl


/-- C8, as stated, fails: `makeMove(0, 'O')` on the new game (X to move) is a
successful move that leaves the game in progress, and the current player
afterwards is O, the mark just placed. -/
theorem makeMove_turn_counterexample :
    ∃ g', makeMove newTicTacToeGame 0 Mark.O = Except.ok g' ∧
      g'.board = Board.set newTicTacToeGame.board 0 (Cell.mark Mark.O) ∧
      g'.gameActive = true ∧ g'.currentPlayer = Mark.O :=
  ⟨_, rfl, rfl, rfl, rfl⟩

/-- C8, amended: when `makeMove(index, mark)` is called with the mark of the
current player, as `handleCellClick` does, and the game is still in progress
afterwards, the turn has passed to the other mark. -/
theorem makeMove_turn (g g' : TicTacToeGame) (i : Nat) (m : Mark)
    (hm : m = g.currentPlayer) (hok : makeMove g i m = Except.ok g')
    (hprog : g'.gameActive = true) :
    g'.currentPlayer = if m = Mark.X then Mark.O else Mark.X := by
  have hend : ∀ g0 r, g' ≠ handleGameEnd g0 r := by
    intro g0 r h
    rw [h] at hprog
    rcases r with _ | n
    · simp [handleGameEnd] at hprog
    · cases n <;> simp [handleGameEnd] at hprog
  dsimp only [makeMove] at hok
  by_cases hex : cellExists i = true
  · rw [if_pos hex] at hok
    split at hok
    · exact absurd (Except.ok.inj hok).symm (hend _ _)
    · split at hok
      · exact absurd (Except.ok.inj hok).symm (hend _ _)
      · rw [← Except.ok.inj hok, (updateDisplay_fields _).2.1, hm]
  · rw [if_neg hex] at hok
    cases hok

theorem makeMove_turn_witness :
    (∃ g', makeMove newTicTacToeGame 4 Mark.X = Except.ok g' ∧ g'.gameActive = true ∧
      g'.currentPlayer = Mark.O) :=
  ⟨_, rfl, rfl, makeMove_turn newTicTacToeGame _ 4 Mark.X rfl rfl rfl⟩

/-! ## Clicks with an index outside 0..8 -/

theorem CellIndex.arrayIndex_nat (i : Nat) (hi : i < 4294967295) :
    (CellIndex.nat i).arrayIndex = some i := by
  simp only [CellIndex.arrayIndex]
  rw [if_pos hi]

theorem CellIndex.arrayIndex_eq_some (cellIndex : CellIndex) (i : Nat)
    (h : cellIndex.arrayIndex = some i) :
    cellIndex = CellIndex.nat i ∧ i < 4294967295 := by
  rcases cellIndex with _ | n | n
  · simp [CellIndex.arrayIndex] at h
  · simp [CellIndex.arrayIndex] at h
  · simp only [CellIndex.arrayIndex] at h
    split_ifs at h with hn
    cases h
    exact ⟨rfl, hn⟩

/-- Under an array index the entry point for every parsed index is
`handleCellClick`. -/
theorem handleCellClickAt_arrayIndex (s : PageObject) (i : Nat) (hi : i < 4294967295) :
    handleCellClickAt s (CellIndex.nat i) =
      (match handleCellClick s.page i with
        | Except.error p => Except.error { s with page := p }
        | Except.ok p => Except.ok { s with page := p }) := by
  have ha := CellIndex.arrayIndex_nat i hi
  have hr : s.read (CellIndex.nat i) = Board.get s.page.game.board i := by
    simp only [PageObject.read, ha]
  unfold handleCellClickAt handleCellClick
  rw [hr]
  by_cases hguard : (!s.page.game.gameActive || (Board.get s.page.game.board i).truthy
      || s.page.game.isComputerThinking) = true
  · rw [if_pos hguard, if_pos hguard]
  · rw [if_neg hguard, if_neg hguard]
    simp only [makeMoveAt, ha]
    cases hm : makeMove s.page.game i s.page.game.currentPlayer with
    | error g => simp only
    | ok g =>
      simp only
      by_cases hpvc : (g.gameActive && decide (g.gameMode = GameMode.pvc)
          && decide (g.currentPlayer = Mark.O)) = true
      · rw [if_pos hpvc, if_pos hpvc]
      · rw [if_neg hpvc, if_neg hpvc]

/-- On a nine-cell board a click with an array index of 9 or more passes the
guard, `makeMove` writes the mark at that index, and the call fails on the
missing page cell. -/
theorem handleCellClick_pastEnd (w : Page) (i : Nat)
    (hactive : w.game.gameActive = true) (hthink : w.game.isComputerThinking = false)
    (hlen : w.game.board.length = 9) (hi : 9 ≤ i) :
    handleCellClick w i = Except.error { w with game := { w.game with
        board := Board.set w.game.board i (Cell.mark w.game.currentPlayer) } } := by
  have hget : Board.get w.game.board i = Cell.undef := by
    by_contra h
    have := Board.lt_length_of_get _ _ h
    omega
  have hex : cellExists i = false := by simp [cellExists]; omega
  simp [handleCellClick, hactive, hthink, hget, Cell.truthy, makeMove, hex]

/-- C9, as stated, fails. A click on the symbol inside an occupied cell gives
the index NaN: on the new page it is not rejected, `makeMove` is entered, stores
X on the array object under the key NaN and throws on the page cell that does
not exist. A call with index 9 is not rejected either: `makeMove` writes X at
index 9, so the board has ten cells, and then throws. -/
theorem handleCellClick_outOfRange_counterexample :
    handleCellClickAt newPageObject CellIndex.nan =
      Except.error { page := newPage,
                     boardProps := [(CellIndex.nan, Cell.mark Mark.X)] } ∧
    handleCellClickAt newPageObject (CellIndex.nat 9) =
      Except.error { page := { newPage with game := { newTicTacToeGame with
        board := [Cell.empty, Cell.empty, Cell.empty, Cell.empty, Cell.empty, Cell.empty,
                  Cell.empty, Cell.empty, Cell.empty, Cell.mark Mark.X] } },
                     boardProps := [] } := by
  constructor <;> decide!

/-- C9, amended: on an active game with a nine-cell board and no computer move
pending, a click with any index outside 0..8 (NaN, a negative integer, an
integer of 9 or more) under which the board holds no mark is not rejected:
`makeMove` writes the current player's mark under that index and then throws on
the missing page cell. The nine cells, the current player, the active flag, the
status and the scores are as they were. Under an index from 9 to 2^32 - 2 the
array has grown to `index + 1` cells; under any other index the write is a
property of the array object and the array still has exactly its nine cells. -/
theorem handleCellClick_outOfRange (s : PageObject) (cellIndex : CellIndex)
    (hactive : s.page.game.gameActive = true)
    (hthink : s.page.game.isComputerThinking = false)
    (hlen : s.page.game.board.length = 9)
    (hout : ∀ i, cellIndex = CellIndex.nat i → 9 ≤ i)
    (hfree : (s.read cellIndex).truthy = false) :
    handleCellClickAt s cellIndex =
      Except.error (s.write cellIndex (Cell.mark s.page.game.currentPlayer)) ∧
    (s.write cellIndex (Cell.mark s.page.game.currentPlayer)).read cellIndex =
      Cell.mark s.page.game.currentPlayer ∧
    (∀ j, j < 9 →
      Board.get (s.write cellIndex (Cell.mark s.page.game.currentPlayer)).page.game.board j =
        Board.get s.page.game.board j) ∧
    (s.write cellIndex (Cell.mark s.page.game.currentPlayer)).page.game.currentPlayer =
      s.page.game.currentPlayer ∧
    (s.write cellIndex (Cell.mark s.page.game.currentPlayer)).page.game.gameActive = true ∧
    (s.write cellIndex (Cell.mark s.page.game.currentPlayer)).page.game.gameStatus =
      s.page.game.gameStatus ∧
    (s.write cellIndex (Cell.mark s.page.game.currentPlayer)).page.game.scores =
      s.page.game.scores ∧
    (∀ i, cellIndex.arrayIndex = some i →
      (s.write cellIndex (Cell.mark s.page.game.currentPlayer)).page.game.board.length =
        i + 1) ∧
    (cellIndex.arrayIndex = none →
      (s.write cellIndex (Cell.mark s.page.game.currentPlayer)).page.game.board =
        s.page.game.board) := by
  cases ha : cellIndex.arrayIndex with
  | none =>
    have hw : s.write cellIndex (Cell.mark s.page.game.currentPlayer) =
        { s with boardProps := (cellIndex, Cell.mark s.page.game.currentPlayer) ::
          s.boardProps } := by
      simp only [PageObject.write, ha]
    refine ⟨?_, ?_, ?_, ?_, ?_, ?_, ?_, ?_, ?_⟩
    · unfold handleCellClickAt
      rw [hactive, hthink, hfree]
      simp only [makeMoveAt, ha]
      rfl
    · rw [hw]
      simp [PageObject.read, ha, List.lookup]
    · intro j _; rw [hw]
    · rw [hw]
    · rw [hw]; exact hactive
    · rw [hw]
    · rw [hw]
    · intro i hi; cases hi
    · intro _; rw [hw]
  | some i =>
    obtain ⟨rfl, hi⟩ := CellIndex.arrayIndex_eq_some cellIndex i ha
    have hi9 : 9 ≤ i := hout i rfl
    have hw : s.write (CellIndex.nat i) (Cell.mark s.page.game.currentPlayer) =
        { s with page := { s.page with game := { s.page.game with
          board := Board.set s.page.game.board i (Cell.mark s.page.game.currentPlayer) } } } := by
      simp only [PageObject.write, ha]
    refine ⟨?_, ?_, ?_, ?_, ?_, ?_, ?_, ?_, ?_⟩
    · rw [handleCellClickAt_arrayIndex s i hi,
        handleCellClick_pastEnd s.page i hactive hthink hlen hi9, hw]
    · rw [hw]
      simp only [PageObject.read, ha]
      exact Board.get_set_eq _ _ _
    · intro j hj
      rw [hw]
      exact Board.get_set_ne _ _ _ _ (by omega)
    · rw [hw]
    · rw [hw]; exact hactive
    · rw [hw]
    · rw [hw]
    · intro k hk
      cases hk
      rw [hw]
      exact Board.length_set_ge _ _ _ (by omega)
    · intro h; cases h

theorem handleCellClick_outOfRange_witness :
    handleCellClickAt newPageObject (CellIndex.neg 0) =
      Except.error (newPageObject.write (CellIndex.neg 0) (Cell.mark Mark.X)) ∧
    (newPageObject.write (CellIndex.neg 0) (Cell.mark Mark.X)).page.game.board =
      newPageObject.page.game.board ∧
    handleCellClickAt newPageObject (CellIndex.nat 12) =
      Except.error (newPageObject.write (CellIndex.nat 12) (Cell.mark Mark.X)) ∧
    (newPageObject.write (CellIndex.nat 12) (Cell.mark Mark.X)).page.game.board.length = 13 :=
  ⟨(handleCellClick_outOfRange newPageObject (CellIndex.neg 0) rfl rfl rfl
      (fun _ h => CellIndex.noConfusion h) rfl).1,
   (handleCellClick_outOfRange newPageObject (CellIndex.neg 0) rfl rfl rfl
      (fun _ h => CellIndex.noConfusion h) rfl).2.2.2.2.2.2.2.2 rfl,
   (handleCellClick_outOfRange newPageObject (CellIndex.nat 12) rfl rfl rfl
      (fun i h => by cases h; decide) rfl).1,
   (handleCellClick_outOfRange newPageObject (CellIndex.nat 12) rfl rfl rfl
      (fun i h => by cases h; decide) rfl).2.2.2.2.2.2.2.1 12 rfl⟩

theorem emptyCount_set (board : Board) (i : Nat) (m : Mark)
    (h : Board.get board i = Cell.empty) :
    emptyCount (Board.set board i (Cell.mark m)) + 1 = emptyCount board := by
  induction board generalizing i with
  | nil => simp [Board.get_nil] at h
  | cons d rest ih =>
    cases i with
    | zero =>
      simp only [Board.get] at h
      subst h
      simp [Board.set, emptyCount]
    | succ i =>
      simp only [Board.get] at h
      have := ih i h
      simp only [emptyCount, Board.set, List.count_cons] at this ⊢
      omega

theorem Board.set_set_empty (board : Board) (i : Nat) (c : Cell)
    (h : Board.get board i = Cell.empty) :
    Board.set (Board.set board i c) i Cell.empty = board :=
  Board.set_set_of_get board i c Cell.empty h (by simp)

/-! ## The search returns, and leaves the board as it found it -/

theorem minimaxLoop_total (rec : Board → Option (Score × Board)) (isMax : Bool) (board : Board)
    (hrec : ∀ i, Board.get board i = Cell.empty →
      ∃ s, rec (Board.set board i (Cell.mark (if isMax then Mark.O else Mark.X))) =
        some (s, Board.set board i (Cell.mark (if isMax then Mark.O else Mark.X)))) :
    ∀ n i best, ∃ s, minimaxLoop rec isMax n i best board = some (s, board) := by
  intro n
  induction n with
  | zero => intro i best; exact ⟨best, rfl⟩
  | succ n ih =>
    intro i best
    by_cases h : Board.get board i = Cell.empty
    · obtain ⟨s, hs⟩ := hrec i h
      simp only [minimaxLoop, h, if_true, hs, Board.set_set_empty board i _ h]
      exact ih _ _
    · simp only [minimaxLoop, h, if_false]
      exact ih _ _

theorem minimax_total : ∀ (fuel : Nat) (board : Board) (depth : Int) (isMax : Bool),
    emptyCount board < fuel → ∃ s, minimax fuel board depth isMax = some (s, board) := by
  intro fuel
  induction fuel with
  | zero => intro board depth isMax h; omega
  | succ fuel ih =>
    intro board depth isMax h
    unfold minimax
    split
    · exact ⟨_, rfl⟩
    · exact ⟨_, rfl⟩
    · split
      · exact ⟨_, rfl⟩
      · apply minimaxLoop_total
        intro i hi
        apply ih
        have := emptyCount_set board i (if isMax then Mark.O else Mark.X) hi
        omega

theorem minimaxLoop_frame (rec : Board → Option (Score × Board)) (isMax : Bool)
    (hrec : ∀ b r, rec b = some r → r.2 = b) :
    ∀ n i best board r, minimaxLoop rec isMax n i best board = some r → r.2 = board := by
  intro n
  induction n with
  | zero =>
    intro i best board r h
    simp only [minimaxLoop] at h
    cases h; rfl
  | succ n ih =>
    intro i best board r h
    by_cases hg : Board.get board i = Cell.empty
    · simp only [minimaxLoop, hg, if_true] at h
      split at h
      · cases h
      · next s b1 hs =>
        have hb1 := hrec _ _ hs
        simp only at hb1
        rw [hb1, Board.set_set_empty board i _ hg] at h
        exact ih _ _ _ _ h
    · simp only [minimaxLoop, hg, if_false] at h
      exact ih _ _ _ _ h

theorem minimax_frame : ∀ (fuel : Nat) (board : Board) (depth : Int) (isMax : Bool)
    (r : Score × Board), minimax fuel board depth isMax = some r → r.2 = board := by
  intro fuel
  induction fuel with
  | zero => intro board depth isMax r h; simp [minimax] at h
  | succ fuel ih =>
    intro board depth isMax r h
    unfold minimax at h
    split at h
    · cases h; rfl
    · cases h; rfl
    · split at h
      · cases h; rfl
      · exact minimaxLoop_frame _ _ (fun b r hr => ih _ _ _ _ hr) _ _ _ _ _ h

theorem getBestMoveLoop_total (fuel : Nat) (board : Board)
    (hrec : ∀ i, Board.get board i = Cell.empty →
      ∃ s, minimax fuel (Board.set board i (Cell.mark Mark.O)) 0 false =
        some (s, Board.set board i (Cell.mark Mark.O))) :
    ∀ n i best move, ∃ k, getBestMoveLoop fuel n i best move board = some (k, board) := by
  intro n
  induction n with
  | zero => intro i best move; exact ⟨move, rfl⟩
  | succ n ih =>
    intro i best move
    by_cases h : Board.get board i = Cell.empty
    · obtain ⟨s, hs⟩ := hrec i h
      simp only [getBestMoveLoop, h, if_true, hs, Board.set_set_empty board i _ h]
      split_ifs
      · exact ih _ _ _
      · exact ih _ _ _
    · simp only [getBestMoveLoop, h, if_false]
      exact ih _ _ _

theorem getBestMoveLoop_frame (fuel : Nat) :
    ∀ n i best move board r, getBestMoveLoop fuel n i best move board = some r →
      r.2 = board := by
  intro n
  induction n with
  | zero =>
    intro i best move board r h
    simp only [getBestMoveLoop] at h
    cases h; rfl
  | succ n ih =>
    intro i best move board r h
    by_cases hg : Board.get board i = Cell.empty
    · simp only [getBestMoveLoop, hg, if_true] at h
      split at h
      · cases h
      · next s b1 hs =>
        have hb1 := minimax_frame _ _ _ _ _ hs
        simp only at hb1
        rw [hb1, Board.set_set_empty board i _ hg] at h
        split_ifs at h
        · exact ih _ _ _ _ _ h
        · exact ih _ _ _ _ _ h
    · simp only [getBestMoveLoop, hg, if_false] at h
      exact ih _ _ _ _ _ h

/-- C6: with fuel for the depth of the search (more than the number of empty
cells), `minimax` and `getBestMove` return, and the board they leave is the
board they were given, cell for cell; and whatever the fuel, a call that returns
leaves the board it was given. -/
theorem solver_restores_board (fuel : Nat) (board : Board) (depth : Int) (isMax : Bool)
    (hfuel : emptyCount board < fuel) :
    (∃ s, minimax fuel board depth isMax = some (s, board)) ∧
    (∃ k, getBestMove fuel board = some (k, board)) ∧
    (∀ fuel' r, minimax fuel' board depth isMax = some r → r.2 = board) ∧
    (∀ fuel' r, getBestMove fuel' board = some r → r.2 = board) := by
  refine ⟨minimax_total fuel board depth isMax hfuel, ?_,
    fun fuel' r h => minimax_frame fuel' board depth isMax r h,
    fun fuel' r h => getBestMoveLoop_frame fuel' _ _ _ _ _ _ h⟩
  apply getBestMoveLoop_total
  intro i hi
  apply minimax_total
  have := emptyCount_set board i Mark.O hi
  omega

theorem solver_restores_board_witness :
    emptyCount scenarioWin.board < 10 ∧
    (∃ s, minimax 10 scenarioWin.board 3 true = some (s, scenarioWin.board)) ∧
    (∃ k, getBestMove 10 scenarioWin.board = some (k, scenarioWin.board)) :=
  ⟨by decide, (solver_restores_board 10 scenarioWin.board 3 true (by decide)).1,
    (solver_restores_board 10 scenarioWin.board 3 true (by decide)).2.1⟩


theorem Board.exists_get_of_mem (board : Board) (c : Cell) (h : c ∈ board) :
    ∃ j, j < board.length ∧ Board.get board j = c := by
  induction board with
  | nil => simp at h
  | cons d rest ih =>
    rcases List.mem_cons.1 h with rfl | h
    · exact ⟨0, by simp, rfl⟩
    · obtain ⟨j, hj, hg⟩ := ih h
      exact ⟨j + 1, by simpa using hj, hg⟩

theorem Board.exists_empty_of_not_full (board : Board)
    (h : isBoardFullForBoard board = false) :
    ∃ j, j < board.length ∧ Board.get board j = Cell.empty := by
  have : ¬ noEmptyCell board := fun hf => by
    rw [(isBoardFullForBoard_iff board).2 hf] at h; cases h
  simp only [noEmptyCell, not_forall, not_not] at this
  obtain ⟨c, hc, rfl⟩ := this
  exact Board.exists_get_of_mem board _ hc

theorem Score.pick_fin (isMax : Bool) (v : Int) (best : Score)
    (h : (∃ u, best = Score.fin u) ∨ best = (if isMax then Score.negInf else Score.posInf)) :
    ∃ u, (if isMax then Score.max (Score.fin v) best else Score.min (Score.fin v) best) =
      Score.fin u := by
  rcases h with ⟨u, rfl⟩ | rfl
  · cases isMax
    · simp only [Score.min, Score.gt, Bool.false_eq_true, if_false]
      split_ifs <;> exact ⟨_, rfl⟩
    · simp only [Score.max, Score.gt, if_true]
      split_ifs <;> exact ⟨_, rfl⟩
  · cases isMax <;> exact ⟨v, by simp [Score.max, Score.min, Score.gt]⟩

theorem minimaxLoop_fin (rec : Board → Option (Score × Board)) (isMax : Bool) (board : Board)
    (hrec : ∀ i, Board.get board i = Cell.empty →
      ∃ v, rec (Board.set board i (Cell.mark (if isMax then Mark.O else Mark.X))) =
        some (Score.fin v, Board.set board i (Cell.mark (if isMax then Mark.O else Mark.X)))) :
    ∀ n i best,
      ((∃ u, best = Score.fin u) ∨
        (best = (if isMax then Score.negInf else Score.posInf) ∧
          ∃ j, i ≤ j ∧ j < i + n ∧ Board.get board j = Cell.empty)) →
      ∃ v, minimaxLoop rec isMax n i best board = some (Score.fin v, board) := by
  intro n
  induction n with
  | zero =>
    intro i best h
    rcases h with ⟨u, rfl⟩ | ⟨_, j, h1, h2, _⟩
    · exact ⟨u, rfl⟩
    · omega
  | succ n ih =>
    intro i best h
    by_cases hg : Board.get board i = Cell.empty
    · obtain ⟨v, hv⟩ := hrec i hg
      simp only [minimaxLoop, hg, if_true, hv, Board.set_set_empty board i _ hg]
      apply ih
      left
      apply Score.pick_fin
      rcases h with h | ⟨h, _⟩
      · exact Or.inl h
      · exact Or.inr h
    · simp only [minimaxLoop, hg, if_false]
      apply ih
      rcases h with h | ⟨h, j, h1, h2, h3⟩
      · exact Or.inl h
      · refine Or.inr ⟨h, j, ?_, by omega, h3⟩
        rcases Nat.eq_or_lt_of_le h1 with rfl | h4
        · exact absurd h3 hg
        · exact h4

theorem minimax_fin : ∀ (fuel : Nat) (board : Board) (depth : Int) (isMax : Bool),
    board.length = 9 → emptyCount board < fuel →
    ∃ v, minimax fuel board depth isMax = some (Score.fin v, board) := by
  intro fuel
  induction fuel with
  | zero => intro board depth isMax _ h; omega
  | succ fuel ih =>
    intro board depth isMax hlen h
    unfold minimax
    split
    · exact ⟨_, rfl⟩
    · exact ⟨_, rfl⟩
    · split
      · exact ⟨_, rfl⟩
      · next hfull =>
        apply minimaxLoop_fin
        · intro i hi
          apply ih
          · rw [Board.length_set _ _ _ (Board.lt_length_of_get _ _ (by simp [hi])), hlen]
          · have := emptyCount_set board i (if isMax then Mark.O else Mark.X) hi
            omega
        · right
          obtain ⟨j, hj, hg⟩ := Board.exists_empty_of_not_full board (by simpa using hfull)
          exact ⟨rfl, j, by omega, by omega, hg⟩

theorem getBestMoveLoop_empty (fuel : Nat) (board : Board)
    (hrec : ∀ i, Board.get board i = Cell.empty →
      ∃ v, minimax fuel (Board.set board i (Cell.mark Mark.O)) 0 false =
        some (Score.fin v, Board.set board i (Cell.mark Mark.O))) :
    ∀ n i best move,
      (best = Score.negInf → ∀ j, j < i → Board.get board j ≠ Cell.empty) →
      (best ≠ Score.negInf → Board.get board move = Cell.empty) →
      ∃ k, getBestMoveLoop fuel n i best move board = some (k, board) ∧
        ((∀ j, j < i + n → Board.get board j ≠ Cell.empty) ∨ Board.get board k = Cell.empty) := by
  intro n
  induction n with
  | zero =>
    intro i best move h1 h2
    refine ⟨move, rfl, ?_⟩
    by_cases hb : best = Score.negInf
    · exact Or.inl (h1 hb)
    · exact Or.inr (h2 hb)
  | succ n ih =>
    intro i best move h1 h2
    have hi : i + 1 + n = i + (n + 1) := by omega
    by_cases hg : Board.get board i = Cell.empty
    · obtain ⟨v, hv⟩ := hrec i hg
      simp only [getBestMoveLoop, hg, if_true, hv, Board.set_set_empty board i _ hg]
      split_ifs with hgt
      · rw [← hi]
        exact ih (i + 1) (Score.fin v) i (fun h => by cases h) (fun _ => hg)
      · rw [← hi]
        have hb : best ≠ Score.negInf := by
          rintro rfl
          simp [Score.gt] at hgt
        exact ih (i + 1) best move (fun h => absurd h hb) h2
    · simp only [getBestMoveLoop, hg, if_false]
      rw [← hi]
      apply ih (i + 1) best move _ h2
      intro hb j hj
      rcases Nat.eq_or_lt_of_le (Nat.le_of_lt_succ hj) with rfl | h4
      · exact hg
      · exact h1 hb j h4

/-- The loop of `getBestMove` ends on the index of an empty cell as soon as the
board has one: every score is finite and so beats the initial -Infinity. -/
theorem getBestMove_some (fuel : Nat) (board : Board)
    (hlen : board.length = 9) (hempty : ∃ i, Board.get board i = Cell.empty)
    (hfuel : emptyCount board ≤ fuel) :
    ∃ k, getBestMove fuel board = some (k, board) ∧ k < 9 ∧
      Board.get board k = Cell.empty := by
  have hrec : ∀ i, Board.get board i = Cell.empty →
      ∃ v, minimax fuel (Board.set board i (Cell.mark Mark.O)) 0 false =
        some (Score.fin v, Board.set board i (Cell.mark Mark.O)) := by
    intro i hi
    apply minimax_fin
    · rw [Board.length_set _ _ _ (Board.lt_length_of_get _ _ (by simp [hi])), hlen]
    · have := emptyCount_set board i Mark.O hi
      omega
  obtain ⟨k, hk, hor⟩ := getBestMoveLoop_empty fuel board hrec 9 0 Score.negInf 0
    (fun _ j hj => by omega) (fun h => absurd rfl h)
  refine ⟨k, hk, ?_⟩
  obtain ⟨i, hi⟩ := hempty
  have hi9 : i < 9 := hlen ▸ Board.lt_length_of_get _ _ (by simp [hi])
  rcases hor with hnone | hk'
  · exact absurd hi (hnone i (by omega))
  · exact ⟨hlen ▸ Board.lt_length_of_get _ _ (by simp [hk']), hk'⟩

/-- C5: on a nine-cell board with at least one empty cell, `getBestMove` (with
fuel for the depth of the search) returns an index in 0..8 whose cell is empty,
never the index of an occupied cell. -/
theorem getBestMove_empty_cell (fuel : Nat) (board : Board)
    (hlen : board.length = 9) (hempty : ∃ i, Board.get board i = Cell.empty)
    (hfuel : emptyCount board ≤ fuel) :
    ∃ k, getBestMove fuel board = some (k, board) ∧ k < 9 ∧
      Board.get board k = Cell.empty := by
  obtain ⟨k, hk, hk9, hkempty⟩ := getBestMove_some fuel board hlen hempty hfuel
  exact ⟨k, hk, hk9, hkempty⟩

theorem getBestMove_empty_cell_witness :
    ∃ k, getBestMove 10 scenarioWin.board = some (k, scenarioWin.board) ∧ k < 9 ∧
      Board.get scenarioWin.board k = Cell.empty :=
  getBestMove_empty_cell 10 scenarioWin.board rfl ⟨2, rfl⟩ (by decide)

/-! ## The evaluator computes what the solver computes -/

theorem strict_eq (n : Nat) (f : Nat → Nat) : strict n f = f n := by
  cases n <;> rfl

theorem lineOf_eq (x y z : Cell) (next : Option Mark) :
    (if x = Cell.mark Mark.X ∧ y = Cell.mark Mark.X ∧ z = Cell.mark Mark.X then some Mark.X
      else if x = Cell.mark Mark.O ∧ y = Cell.mark Mark.O ∧ z = Cell.mark Mark.O then some Mark.O
      else next) = lineOf x y z next := by
  rcases x with _ | _ | x <;> rcases y with _ | _ | y <;> rcases z with _ | _ | z <;>
    first
    | rfl
    | (cases x <;> rfl)
    | (cases x <;> cases y <;> rfl)
    | (cases x <;> cases y <;> cases z <;> rfl)

theorem checkWinnerLoop_nil (board : Board) : checkWinnerLoop board [] = none := rfl

theorem checkWinnerLoop_lineOf (board : Board) (a b c : Nat) (rest : List (Nat × Nat × Nat)) :
    checkWinnerLoop board ((a, b, c) :: rest) =
      lineOf (Board.get board a) (Board.get board b) (Board.get board c)
        (checkWinnerLoop board rest) := by
  rw [checkWinnerLoop_step]
  exact lineOf_eq _ _ _ _

theorem checkWinnerForBoard_cells (c0 c1 c2 c3 c4 c5 c6 c7 c8 : Cell) :
    checkWinnerForBoard [c0, c1, c2, c3, c4, c5, c6, c7, c8] =
      fastWinner c0 c1 c2 c3 c4 c5 c6 c7 c8 := by
  simp only [checkWinnerForBoard, winningPatterns, checkWinnerLoop_lineOf, checkWinnerLoop_nil,
    Board.get, fastWinner]

theorem notEmpty_eq (c : Cell) (next : Bool) :
    notEmpty c next = (decide (c ≠ Cell.empty) && next) := by
  rcases c with _ | _ | m <;> simp [notEmpty]

theorem isBoardFullForBoard_cells (c0 c1 c2 c3 c4 c5 c6 c7 c8 : Cell) :
    isBoardFullForBoard [c0, c1, c2, c3, c4, c5, c6, c7, c8] =
      fastFull c0 c1 c2 c3 c4 c5 c6 c7 c8 := by
  simp only [isBoardFullForBoard, List.all_cons, List.all_nil, fastFull, notEmpty_eq]

theorem Board.eq_cells (board : Board) (h : board.length = 9) :
    ∃ c0 c1 c2 c3 c4 c5 c6 c7 c8, board = [c0, c1, c2, c3, c4, c5, c6, c7, c8] := by
  match board, h with
  | [c0, c1, c2, c3, c4, c5, c6, c7, c8], _ => exact ⟨_, _, _, _, _, _, _, _, _, rfl⟩

theorem Score.gt_ofCode_of_le (a b : Nat) (h : a ≤ b) :
    Score.gt (Score.ofCode a) (Score.ofCode b) = false := by
  unfold Score.ofCode
  split_ifs <;> simp only [Score.gt, decide_eq_false_iff_not] <;> omega

theorem Score.ofCode_eq_of_not_gt (a b : Nat) (h : a ≤ b)
    (hgt : Score.gt (Score.ofCode b) (Score.ofCode a) = false) :
    Score.ofCode a = Score.ofCode b := by
  unfold Score.ofCode at hgt ⊢
  split_ifs at hgt ⊢ <;> simp only [Score.gt, decide_eq_false_iff_not] at hgt <;>
    first
    | rfl
    | omega
    | (congr 1; omega)
    | cases hgt

theorem Score.pick_ofCode (isMax : Bool) (best v : Nat) :
    (if isMax then Score.max (Score.ofCode v) (Score.ofCode best)
      else Score.min (Score.ofCode v) (Score.ofCode best)) =
      Score.ofCode (fastPick isMax best v) := by
  have hmax : Nat.add best (Nat.sub v best) = if best ≤ v then v else best := by
    show best + (v - best) = _
    split_ifs <;> omega
  have hmin : Nat.sub best (Nat.sub best v) = if best ≤ v then best else v := by
    show best - (best - v) = _
    split_ifs <;> omega
  cases isMax
  · simp only [Bool.false_eq_true, if_false, fastPick, cond, hmin, Score.min]
    by_cases h : best ≤ v
    · rw [if_pos h]
      split_ifs with hgt
      · rfl
      · exact (Score.ofCode_eq_of_not_gt best v h (by simpa using hgt)).symm
    · rw [if_neg h, Score.gt_ofCode_of_le v best (by omega)]
      simp
  · simp only [if_true, fastPick, cond, hmax, Score.max]
    by_cases h : best ≤ v
    · rw [if_pos h, Score.gt_ofCode_of_le best v h]
      simp
    · rw [if_neg h]
      split_ifs with hgt
      · rfl
      · exact Score.ofCode_eq_of_not_gt v best (by omega) (by simpa using hgt)

theorem minimaxLoop_code (rec : Board → Option (Score × Board)) (isMax : Bool) (R : Board → Nat)
    (board : Board)
    (hrec : ∀ i, Board.get board i = Cell.empty → ∀ r,
      rec (Board.set board i (Cell.mark (if isMax then Mark.O else Mark.X))) = some r →
      r = (Score.ofCode (R (Board.set board i (Cell.mark (if isMax then Mark.O else Mark.X)))),
        Board.set board i (Cell.mark (if isMax then Mark.O else Mark.X)))) :
    ∀ n i best r,
      minimaxLoop rec isMax n i (Score.ofCode best) board = some r →
      r = (Score.ofCode
        (codeLoop R (Cell.mark (if isMax then Mark.O else Mark.X)) isMax n i best board),
        board) := by
  intro n
  induction n with
  | zero =>
    intro i best r h
    simp only [minimaxLoop] at h
    cases h; rfl
  | succ n ih =>
    intro i best r h
    by_cases hg : Board.get board i = Cell.empty
    · simp only [minimaxLoop, hg, if_true] at h
      simp only [codeLoop, hg, if_true]
      split at h
      · cases h
      · next s b1 hs =>
        have h1 := hrec i hg _ hs
        cases h1
        rw [Board.set_set_empty board i _ hg, Score.pick_ofCode] at h
        exact ih _ _ _ h
    · simp only [minimaxLoop, hg, if_false] at h
      simp only [codeLoop, hg, if_false]
      exact ih _ _ _ h

theorem codeLoop_zero (R : Board → Nat) (p : Cell) (isMax : Bool) (i best : Nat) (board : Board) :
    codeLoop R p isMax 0 i best board = best := rfl

theorem codeLoop_step (R : Board → Nat) (p : Cell) (isMax : Bool) (n i best : Nat)
    (board : Board) :
    codeLoop R p isMax (n + 1) i best board =
      fastCell (Board.get board i) isMax best (fun _ => R (Board.set board i p))
        (fun b => codeLoop R p isMax n (i + 1) b board) := by
  by_cases hg : Board.get board i = Cell.empty
  · simp only [codeLoop, hg, if_true, fastCell, strict_eq]
  · simp only [codeLoop, hg, if_false]
    rcases h : Board.get board i with _ | _ | m
    · rfl
    · exact absurd h hg
    · rfl

theorem codeLoop_cells (rc : Board → Nat → Bool → Nat) (p : Cell) (isMax nm : Bool)
    (c0 c1 c2 c3 c4 c5 c6 c7 c8 : Cell) (d init : Nat) :
    codeLoop (fun b => rc b d nm) p isMax 9 0 init [c0, c1, c2, c3, c4, c5, c6, c7, c8] =
      fastLoop rc p isMax nm c0 c1 c2 c3 c4 c5 c6 c7 c8 d init := by
  simp only [codeLoop_step, codeLoop_zero, Board.get, Board.set, fastLoop]

theorem Score.ofCode_win (depth : Nat) (h : depth ≤ 20) :
    Score.ofCode (Nat.sub 21 depth) = Score.fin (10 - (depth : Int)) := by
  show Score.ofCode (21 - depth) = _
  unfold Score.ofCode
  rw [if_neg (by omega), if_neg (by omega)]
  congr 1
  omega

theorem Score.ofCode_loss (depth : Nat) (h : depth ≤ 20) :
    Score.ofCode (Nat.succ depth) = Score.fin ((depth : Int) - 10) := by
  unfold Score.ofCode
  rw [if_neg (by omega), if_neg (by omega)]
  congr 1
  simp only [Nat.succ_eq_add_one, Nat.cast_add, Nat.cast_one]
  omega

theorem Score.ofCode_draw : Score.ofCode 11 = Score.fin 0 := by
  simp [Score.ofCode]

theorem minimax_fast : ∀ (fuel k : Nat) (board : Board) (depth : Nat) (isMax : Bool)
    (r : Score × Board),
    board.length = 9 → emptyCount board < k → depth + emptyCount board ≤ 20 →
    minimax fuel board (depth : Int) isMax = some r →
    r = (Score.ofCode (fastMinimax k board depth isMax), board) := by
  intro fuel
  induction fuel with
  | zero => intro k board depth isMax r _ _ _ h; simp [minimax] at h
  | succ fuel ih =>
    intro k board depth isMax r hlen hk hd h
    obtain ⟨k, rfl⟩ : ∃ k', k = k' + 1 := ⟨k - 1, by omega⟩
    obtain ⟨c0, c1, c2, c3, c4, c5, c6, c7, c8, rfl⟩ := Board.eq_cells board hlen
    have hrec : ∀ (m : Bool) i,
        Board.get [c0, c1, c2, c3, c4, c5, c6, c7, c8] i = Cell.empty → ∀ r,
        minimax fuel (Board.set [c0, c1, c2, c3, c4, c5, c6, c7, c8] i
          (Cell.mark (if m then Mark.O else Mark.X))) ((depth : Int) + 1) (!m) = some r →
        r = (Score.ofCode (fastMinimax k (Board.set [c0, c1, c2, c3, c4, c5, c6, c7, c8] i
          (Cell.mark (if m then Mark.O else Mark.X))) (depth + 1) (!m)),
          Board.set [c0, c1, c2, c3, c4, c5, c6, c7, c8] i
            (Cell.mark (if m then Mark.O else Mark.X))) := by
      intro m i hi r hr
      have hcount := emptyCount_set _ i (if m then Mark.O else Mark.X) hi
      apply ih k _ (depth + 1) (!m) r
      · rw [Board.length_set _ _ _ (Board.lt_length_of_get _ _ (by simp [hi]))]; rfl
      · omega
      · omega
      · simpa using hr
    unfold minimax at h
    simp only [fastMinimax, fastStep]
    rw [checkWinnerForBoard_cells] at h
    rw [isBoardFullForBoard_cells] at h
    rcases hw : fastWinner c0 c1 c2 c3 c4 c5 c6 c7 c8 with _ | w
    · rw [hw] at h
      simp only at h
      cases hf : fastFull c0 c1 c2 c3 c4 c5 c6 c7 c8
      · rw [hf] at h
        simp only [Bool.false_eq_true, if_false] at h
        simp only [cond, strict_eq]
        cases isMax
        · have := minimaxLoop_code (fun b => minimax fuel b ((depth : Int) + 1) true) false
            (fun b => fastMinimax k b (depth + 1) true) _ (by simpa using hrec false) 9 0 22 r
            (by simpa [Score.ofCode] using h)
          rw [this]
          simp only [Bool.false_eq_true, if_false]
          rw [← codeLoop_cells]
        · have := minimaxLoop_code (fun b => minimax fuel b ((depth : Int) + 1) false) true
            (fun b => fastMinimax k b (depth + 1) false) _ (by simpa using hrec true) 9 0 0 r
            (by simpa [Score.ofCode] using h)
          rw [this]
          simp only [if_true]
          rw [← codeLoop_cells]
      · rw [hf] at h
        simp only [if_true] at h
        cases h
        simp only [cond, Score.ofCode_draw]
    · rw [hw] at h
      cases w
      · simp only at h
        cases h
        simp only [Score.ofCode_loss depth (by omega)]
      · simp only at h
        cases h
        simp only [Score.ofCode_win depth (by omega)]

theorem emptyCount_le_length (board : Board) : emptyCount board ≤ board.length :=
  List.count_le_length _ _

theorem fastMinimax_fin (k : Nat) (board : Board) (depth : Nat) (isMax : Bool)
    (hlen : board.length = 9) (hk : emptyCount board < k) (hd : depth + emptyCount board ≤ 20) :
    ∃ v, Score.ofCode (fastMinimax k board depth isMax) = Score.fin v := by
  obtain ⟨v, hv⟩ := minimax_fin (emptyCount board + 1) board depth isMax hlen (by omega)
  have := minimax_fast _ k board depth isMax _ hlen hk hd hv
  exact ⟨v, (Prod.mk.inj this).1.symm⟩

theorem Score.ofCode_fin_bounds (s : Nat) (v : Int) (h : Score.ofCode s = Score.fin v) :
    1 ≤ s ∧ s ≤ 21 := by
  unfold Score.ofCode at h
  split_ifs at h
  constructor <;> omega

theorem Score.gt_ofCode (s best : Nat) (hs : 1 ≤ s ∧ s ≤ 21) (hb : best ≤ 21) :
    Score.gt (Score.ofCode s) (Score.ofCode best) = decide (best < s) := by
  unfold Score.ofCode
  rw [if_neg (by omega), if_neg (by omega)]
  split_ifs with h0 h22
  · subst h0; simp [Score.gt]; omega
  · omega
  · simp only [Score.gt, decide_eq_decide]; omega

theorem getBestMoveLoop_code (fuel : Nat) (R : Board → Nat) (board : Board)
    (hrec : ∀ i, Board.get board i = Cell.empty → ∀ r,
      minimax fuel (Board.set board i (Cell.mark Mark.O)) 0 false = some r →
      r = (Score.ofCode (R (Board.set board i (Cell.mark Mark.O))),
        Board.set board i (Cell.mark Mark.O)))
    (hR : ∀ i, Board.get board i = Cell.empty →
      1 ≤ R (Board.set board i (Cell.mark Mark.O)) ∧
        R (Board.set board i (Cell.mark Mark.O)) ≤ 21) :
    ∀ n i best move r, best ≤ 21 →
      getBestMoveLoop fuel n i (Score.ofCode best) move board = some r →
      r = (codeBestLoop R n i best move board, board) := by
  intro n
  induction n with
  | zero =>
    intro i best move r _ h
    simp only [getBestMoveLoop] at h
    cases h; rfl
  | succ n ih =>
    intro i best move r hb h
    by_cases hg : Board.get board i = Cell.empty
    · simp only [getBestMoveLoop, hg, if_true] at h
      simp only [codeBestLoop, hg, if_true]
      split at h
      · cases h
      · next s b1 hs =>
        have h1 := hrec i hg _ hs
        cases h1
        rw [Board.set_set_empty board i _ hg, Score.gt_ofCode _ _ (hR i hg) hb] at h
        by_cases hlt : best < R (Board.set board i (Cell.mark Mark.O))
        · simp only [hlt, decide_True, if_true] at h ⊢
          exact ih _ _ _ _ (hR i hg).2 h
        · simp only [hlt, decide_False, Bool.false_eq_true, if_false] at h ⊢
          exact ih _ _ _ _ hb h
    · simp only [getBestMoveLoop, hg, if_false] at h
      simp only [codeBestLoop, hg, if_false]
      exact ih _ _ _ _ hb h

theorem codeBestLoop_zero (R : Board → Nat) (i best move : Nat) (board : Board) :
    codeBestLoop R 0 i best move board = move := rfl

theorem codeBestLoop_step (R : Board → Nat) (n i best move : Nat) (board : Board) :
    codeBestLoop R (n + 1) i best move board =
      fastBestCell (Board.get board i) i best move
        (fun _ => R (Board.set board i (Cell.mark Mark.O)))
        (fun b m => codeBestLoop R n (i + 1) b m board) := by
  by_cases hg : Board.get board i = Cell.empty
  · simp only [codeBestLoop, hg, if_true, fastBestCell, strict_eq]
    by_cases hlt : best < R (Board.set board i (Cell.mark Mark.O))
    · have : Nat.ble (Nat.succ best) (R (Board.set board i (Cell.mark Mark.O))) = true :=
        Nat.ble_eq_true_of_le hlt
      simp only [hlt, if_true, this, cond]
    · have : Nat.ble (Nat.succ best) (R (Board.set board i (Cell.mark Mark.O))) = false := by
        rw [Bool.eq_false_iff]
        exact fun h => hlt (Nat.le_of_ble_eq_true h)
      simp only [hlt, if_false, this, cond]
  · simp only [codeBestLoop, hg, if_false]
    rcases h : Board.get board i with _ | _ | m
    · rfl
    · exact absurd h hg
    · rfl

theorem codeBestLoop_cells (rc : Board → Nat → Bool → Nat)
    (c0 c1 c2 c3 c4 c5 c6 c7 c8 : Cell) :
    codeBestLoop (fun b => rc b 0 false) 9 0 0 0 [c0, c1, c2, c3, c4, c5, c6, c7, c8] =
      fastBestMove rc [c0, c1, c2, c3, c4, c5, c6, c7, c8] := by
  simp only [codeBestLoop_step, codeBestLoop_zero, Board.get, Board.set, fastBestMove]

/-- Whatever the fuel, a call of `getBestMove` on a nine-cell board that returns
gives the index that the evaluator computes, and the board it was given. -/
theorem getBestMove_fast (fuel k : Nat) (board : Board) (r : Nat × Board)
    (hlen : board.length = 9) (hk : emptyCount board ≤ k)
    (h : getBestMove fuel board = some r) :
    r = (fastBestMove (fastMinimax k) board, board) := by
  have hle := emptyCount_le_length board
  have hchild : ∀ i, Board.get board i = Cell.empty →
      (Board.set board i (Cell.mark Mark.O)).length = 9 ∧
      emptyCount (Board.set board i (Cell.mark Mark.O)) < k ∧
      0 + emptyCount (Board.set board i (Cell.mark Mark.O)) ≤ 20 := by
    intro i hi
    have := emptyCount_set board i Mark.O hi
    refine ⟨?_, by omega, by omega⟩
    rw [Board.length_set _ _ _ (Board.lt_length_of_get _ _ (by simp [hi])), hlen]
  have := getBestMoveLoop_code fuel (fun b => fastMinimax k b 0 false) board
    (fun i hi r hr => minimax_fast fuel k _ 0 false r (hchild i hi).1 (hchild i hi).2.1
      (hchild i hi).2.2 (by simpa using hr))
    (fun i hi => by
      obtain ⟨v, hv⟩ := fastMinimax_fin k _ 0 false (hchild i hi).1 (hchild i hi).2.1
        (hchild i hi).2.2
      exact Score.ofCode_fin_bounds _ v hv)
    9 0 0 0 r (by omega) (by simpa [getBestMove, Score.ofCode] using h)
  obtain ⟨c0, c1, c2, c3, c4, c5, c6, c7, c8, rfl⟩ := Board.eq_cells board hlen
  rw [this, codeBestLoop_cells]

/-! ## The solver never loses -/

theorem afterMove_eq (board : Board) (next : Board → Bool) (hlen : board.length = 9) :
    afterMove board next =
      (match checkWinnerForBoard board with
        | some Mark.X => false
        | some Mark.O => true
        | none => if isBoardFullForBoard board then true else next board) := by
  obtain ⟨c0, c1, c2, c3, c4, c5, c6, c7, c8, rfl⟩ := Board.eq_cells board hlen
  rw [checkWinnerForBoard_cells, isBoardFullForBoard_cells]
  simp only [afterMove]
  rcases fastWinner c0 c1 c2 c3 c4 c5 c6 c7 c8 with _ | w
  · cases fastFull c0 c1 c2 c3 c4 c5 c6 c7 c8 <;> rfl
  · cases w <;> rfl

theorem tryCell_true (c : Cell) (v : Unit → Bool) (rest : Bool) (h : tryCell c v rest = true) :
    (c = Cell.empty → v () = true) ∧ rest = true := by
  rcases c with _ | _ | m
  · exact ⟨fun hc => Cell.noConfusion hc, h⟩
  · simp only [tryCell, Bool.and_eq_true] at h
    exact ⟨fun _ => h.1, h.2⟩
  · exact ⟨fun hc => Cell.noConfusion hc, h⟩

theorem checkPlay_cell (rc : Board → Nat → Bool → Nat) (n i : Nat) (board : Board)
    (hlen : board.length = 9) (hi : Board.get board i = Cell.empty)
    (h : checkPlay rc (n + 1) board = true) :
    afterMove (Board.set board i (Cell.mark Mark.X))
      (fun b => replyOk rc b (checkPlay rc n)) = true := by
  have hi9 : i < 9 := hlen ▸ Board.lt_length_of_get _ _ (by simp [hi])
  obtain ⟨c0, c1, c2, c3, c4, c5, c6, c7, c8, rfl⟩ := Board.eq_cells board hlen
  simp only [checkPlay] at h
  obtain ⟨h0, h⟩ := tryCell_true _ _ _ h
  obtain ⟨h1, h⟩ := tryCell_true _ _ _ h
  obtain ⟨h2, h⟩ := tryCell_true _ _ _ h
  obtain ⟨h3, h⟩ := tryCell_true _ _ _ h
  obtain ⟨h4, h⟩ := tryCell_true _ _ _ h
  obtain ⟨h5, h⟩ := tryCell_true _ _ _ h
  obtain ⟨h6, h⟩ := tryCell_true _ _ _ h
  obtain ⟨h7, h⟩ := tryCell_true _ _ _ h
  obtain ⟨h8, _⟩ := tryCell_true _ _ _ h
  interval_cases i
  · exact h0 hi
  · exact h1 hi
  · exact h2 hi
  · exact h3 hi
  · exact h4 hi
  · exact h5 hi
  · exact h6 hi
  · exact h7 hi
  · exact h8 hi

theorem makeMove_afterMove (g g' : TicTacToeGame) (i : Nat) (m : Mark) (next : Board → Bool)
    (hlen : g.board.length = 9) (hX : g.scores.X = 0) (hactive : g.gameActive = true)
    (hnext : afterMove (Board.set g.board i (Cell.mark m)) next = true)
    (hok : makeMove g i m = Except.ok g') :
    g'.board.length = 9 ∧ g'.scores.X = 0 ∧
    (g'.gameActive = true →
      checkWinnerForBoard g'.board = none ∧ isBoardFullForBoard g'.board = false ∧
      g'.currentPlayer = (if g.currentPlayer = Mark.X then Mark.O else Mark.X) ∧
      next g'.board = true) ∧
    (g'.gameActive = false →
      g'.gameStatus = "It's a draw!" ∨ g'.gameStatus = getPlayerName g' Mark.O ++ " wins!") := by
  dsimp only [makeMove] at hok
  by_cases hex : cellExists i = true
  · have hi : i < 9 := by simpa [cellExists] using hex
    have hlen' : (Board.set g.board i (Cell.mark m)).length = 9 := by
      rw [Board.length_set _ _ _ (by omega), hlen]
    rw [afterMove_eq _ _ hlen'] at hnext
    rw [if_pos hex] at hok
    change (match checkWinnerForBoard (Board.set g.board i (Cell.mark m)) with
      | some winner => _
      | none => if isBoardFullForBoard (Board.set g.board i (Cell.mark m)) = true then _ else _)
      = _ at hok
    rcases hw : checkWinnerForBoard (Board.set g.board i (Cell.mark m)) with _ | w
    · rw [hw] at hok hnext
      simp only at hok hnext
      cases hf : isBoardFullForBoard (Board.set g.board i (Cell.mark m))
      · rw [hf] at hok hnext
        simp only [Bool.false_eq_true, if_false] at hok hnext
        have hg' := (Except.ok.inj hok).symm
        have hu := updateDisplay_fields
          { g with board := Board.set g.board i (Cell.mark m),
                   currentPlayer := if g.currentPlayer = Mark.X then Mark.O else Mark.X }
        rw [← hg'] at hu
        obtain ⟨hb, hc, _, ha, hs, _⟩ := hu
        simp only at hb hc ha hs
        refine ⟨by rw [hb]; exact hlen', by rw [hs]; exact hX, ?_, ?_⟩
        · intro _
          rw [hb]
          exact ⟨hw, hf, hc, hnext⟩
        · intro h
          rw [ha, hactive] at h
          cases h
      · rw [hf] at hok
        simp only [if_true] at hok
        have hg' := (Except.ok.inj hok).symm
        subst hg'
        refine ⟨by rw [handleGameEnd_board]; exact hlen', hX, ?_, ?_⟩
        · intro h
          simp [handleGameEnd] at h
        · intro _
          exact Or.inl rfl
    · rw [hw] at hok hnext
      cases w
      · simp only at hnext
        cases hnext
      · simp only at hok
        have hg' := (Except.ok.inj hok).symm
        subst hg'
        refine ⟨by rw [handleGameEnd_board]; exact hlen', hX, ?_, ?_⟩
        · intro h
          simp [handleGameEnd] at h
        · intro _
          exact Or.inr rfl
  · rw [if_neg hex] at hok
    cases hok

theorem playInv_start (hcheck : checkPlay (fastMinimax 9) 5 emptyBoard = true)
    (mode : GameMode) : PlayInv (handleModeChange newPage mode).game := by
  cases mode
  · refine ⟨rfl, rfl, fun _ => ⟨by decide, by decide, fun _ => ⟨5, hcheck⟩, fun h => ?_⟩,
      fun h => ?_⟩
    · cases h
    · cases h
  · refine ⟨rfl, rfl, fun _ => ⟨by decide, by decide, fun _ => ⟨5, hcheck⟩, fun h => ?_⟩,
      fun h => ?_⟩
    · cases h
    · cases h

theorem playInv_of_play (hcheck : checkPlay (fastMinimax 9) 5 emptyBoard = true)
    (g : TicTacToeGame) (h : Play g) : PlayInv g := by
  induction h with
  | start mode => exact playInv_start hcheck mode
  | xMove g g' i _ hactive hcur hempty hok ih =>
    obtain ⟨hlen, hX, hact, _⟩ := ih
    obtain ⟨_, _, hx, _⟩ := hact hactive
    obtain ⟨n, hn⟩ := hx hcur
    cases n with
    | zero => simp [checkPlay] at hn
    | succ n =>
      have hnext := checkPlay_cell _ n i g.board hlen hempty hn
      obtain ⟨h1, h2, h3, h4⟩ := makeMove_afterMove g g' i Mark.X _ hlen hX hactive hnext hok
      refine ⟨h1, h2, fun ha => ?_, h4⟩
      obtain ⟨hw, hf, hc, hnx⟩ := h3 ha
      rw [hcur] at hc
      refine ⟨hw, hf, fun hcx => ?_, fun _ => ⟨n, hnx⟩⟩
      rw [hc] at hcx
      cases hcx
  | oMove g g' fuel k board1 _ hactive hcur hbest hok ih =>
    obtain ⟨hlen, hX, hact, _⟩ := ih
    obtain ⟨_, _, _, ho⟩ := hact hactive
    obtain ⟨n, hn⟩ := ho hcur
    have hfast := getBestMove_fast fuel 9 g.board _ hlen
      (hlen ▸ emptyCount_le_length g.board) hbest
    obtain ⟨hk, hb1⟩ := Prod.mk.inj hfast
    subst hk hb1
    obtain ⟨h1, h2, h3, h4⟩ := makeMove_afterMove g g' _ Mark.O _ hlen hX hactive hn hok
    refine ⟨h1, h2, fun ha => ?_, h4⟩
    obtain ⟨hw, hf, hc, hnx⟩ := h3 ha
    rw [hcur] at hc
    refine ⟨hw, hf, fun _ => ⟨n, hnx⟩, fun hco => ?_⟩
    rw [hc] at hco
    cases hco

set_option maxRecDepth 100000 in
/-- The search through all games from the empty board succeeds, and on the
board `[X,_,_,_,_,_,_,_,_]` the evaluator gives index 4 (by evaluation). -/
theorem play_checked :
    checkPlay (fastMinimax 9) 5 emptyBoard = true ∧
    fastBestMove (fastMinimax 9) cornerBoard = 4 := by
  decide!

/-- C1: in every game played from the empty board in which X moves first and
plays any empty cell at each of its turns, and O replies each time with the
index returned by `getBestMove`, applied with `makeMove`, X never wins: the
score of X stays 0, an ended game is reported as a draw or as a win of O, and
at each turn of O the solver does return an empty cell and the game goes on
with it. -/
theorem solver_never_loses (g : TicTacToeGame) (h : Play g) :
    g.scores.X = 0 ∧
    (g.gameActive = false →
      g.gameStatus = "It's a draw!" ∨ g.gameStatus = getPlayerName g Mark.O ++ " wins!") ∧
    (g.gameActive = true → g.currentPlayer = Mark.O →
      ∃ k g', getBestMove 10 g.board = some (k, g.board) ∧
        Board.get g.board k = Cell.empty ∧
        makeMove g k Mark.O = Except.ok g' ∧ Play g') := by
  obtain ⟨hlen, hX, hact, hend⟩ := playInv_of_play play_checked.1 g h
  refine ⟨hX, hend, fun hactive hcur => ?_⟩
  obtain ⟨_, hfull, _, _⟩ := hact hactive
  obtain ⟨j, _, hj⟩ := Board.exists_empty_of_not_full g.board hfull
  obtain ⟨k, hk, hk9, hkempty⟩ := getBestMove_some 10 g.board hlen ⟨j, hj⟩
    (by have := emptyCount_le_length g.board; omega)
  have hex : cellExists k = true := by simpa [cellExists] using hk9
  have hmove : ∃ g', makeMove g k Mark.O = Except.ok g' := by
    dsimp only [makeMove]
    rw [if_pos hex]
    split
    · exact ⟨_, rfl⟩
    · split
      · exact ⟨_, rfl⟩
      · exact ⟨_, rfl⟩
  obtain ⟨g', hg'⟩ := hmove
  exact ⟨k, g', hk, hkempty, hg', Play.oMove g g' 10 k g.board h hactive hcur hk hg'⟩

theorem getBestMove_corner : getBestMove 10 cornerBoard = some (4, cornerBoard) := by
  obtain ⟨k, hk, _, _⟩ := getBestMove_some 10 cornerBoard rfl ⟨1, rfl⟩ (by decide)
  have := getBestMove_fast 10 9 cornerBoard _ rfl (by decide) hk
  rw [play_checked.2] at this
  rw [hk, this]

theorem play_cornerGame : Play cornerGame :=
  Play.xMove pvcPage.game cornerGame 0 (Play.start GameMode.pvc) rfl rfl rfl rfl

theorem play_reply (g g' : TicTacToeGame) (hp : Play g) (hactive : g.gameActive = true)
    (hcur : g.currentPlayer = Mark.O)
    (hok : makeMove g (fastBestMove (fastMinimax 9) g.board) Mark.O = Except.ok g') :
    Play g' := by
  obtain ⟨hlen, _, hact, _⟩ := playInv_of_play play_checked.1 g hp
  obtain ⟨_, hfull, _, _⟩ := hact hactive
  obtain ⟨j, _, hj⟩ := Board.exists_empty_of_not_full g.board hfull
  obtain ⟨k, hk, _, _⟩ := getBestMove_some 10 g.board hlen ⟨j, hj⟩
    (by have := emptyCount_le_length g.board; omega)
  have hfast := getBestMove_fast 10 9 g.board _ hlen (hlen ▸ emptyCount_le_length g.board) hk
  rw [← (Prod.mk.inj hfast).1] at hok
  exact Play.oMove g g' 10 k g.board hp hactive hcur hk hok

theorem replay_play : ∀ (xMoves : List Nat) (g g' : TicTacToeGame),
    Play g → replay g xMoves = some g' → Play g' := by
  intro xMoves
  induction xMoves with
  | nil =>
    intro g g' hp h
    simp only [replay, Option.some.injEq] at h
    exact h ▸ hp
  | cons i rest ih =>
    intro g g' hp h
    simp only [replay] at h
    by_cases hg : g.gameActive = true ∧ g.currentPlayer = Mark.X ∧
        Board.get g.board i = Cell.empty
    · rw [if_pos hg] at h
      obtain ⟨hactive, hcur, hempty⟩ := hg
      cases h1 : makeMove g i Mark.X with
      | error e => rw [h1] at h; cases h
      | ok g1 =>
        rw [h1] at h
        have hp1 : Play g1 := Play.xMove g g1 i hp hactive hcur hempty h1
        by_cases hg1 : g1.gameActive = true ∧ g1.currentPlayer = Mark.O
        · simp only [if_pos hg1] at h
          cases h2 : makeMove g1 (fastBestMove (fastMinimax 9) g1.board) Mark.O with
          | error e => rw [h2] at h; cases h
          | ok g2 =>
            rw [h2] at h
            exact ih g2 g' (play_reply g1 g2 hp1 hg1.1 hg1.2 h2) h
        · simp only [if_neg hg1] at h
          by_cases hrest : rest = []
          · rw [if_pos hrest] at h
            cases h
            exact hp1
          · rw [if_neg hrest] at h
            cases h
    · rw [if_neg hg] at h
      cases h

theorem play_centreGame : Play centreGame :=
  Play.oMove cornerGame centreGame 10 4 cornerBoard play_cornerGame rfl rfl
    getBestMove_corner (by decide!)

set_option maxRecDepth 100000 in
theorem replay_centreGame : replay centreGame [8, 7, 2, 3] = some drawnGame := by
  decide!

theorem play_drawnGame : Play drawnGame :=
  replay_play [8, 7, 2, 3] centreGame drawnGame play_centreGame replay_centreGame

theorem solver_never_loses_witness :
    Play cornerGame ∧ cornerGame.board = cornerBoard ∧
    getBestMove 10 cornerBoard = some (4, cornerBoard) ∧
    (∃ k g', getBestMove 10 cornerGame.board = some (k, cornerGame.board) ∧
        Board.get cornerGame.board k = Cell.empty ∧
        makeMove cornerGame k Mark.O = Except.ok g' ∧ Play g') ∧
    Play drawnGame ∧ drawnGame.gameActive = false ∧ drawnGame.scores.X = 0 ∧
    (drawnGame.gameStatus = "It's a draw!" ∨
      drawnGame.gameStatus = getPlayerName drawnGame Mark.O ++ " wins!") :=
  ⟨play_cornerGame, rfl, getBestMove_corner,
    (solver_never_loses cornerGame play_cornerGame).2.2 rfl rfl,
    play_drawnGame, rfl,
    (solver_never_loses drawnGame play_drawnGame).1,
    (solver_never_loses drawnGame play_drawnGame).2.1 rfl⟩

/-! ## A reset while the computer turn is pending -/

set_option maxRecDepth 100000 in
/-- On the empty board the evaluator gives index 0 (by evaluation). -/
theorem fastBestMove_emptyBoard : fastBestMove (fastMinimax 9) emptyBoard = 0 := by
  decide!

theorem getBestMove_emptyBoard : getBestMove 10 emptyBoard = some (0, emptyBoard) := by
  obtain ⟨k, hk, _, _⟩ := getBestMove_some 10 emptyBoard rfl ⟨0, rfl⟩ (by decide)
  have := getBestMove_fast 10 9 emptyBoard _ rfl (by decide) hk
  rw [fastBestMove_emptyBoard] at this
  rw [hk, this]

theorem computerTurn_eq (fuel : Nat) (w : Page) (k : Nat) (b : Board)
    (h : getBestMove fuel w.game.board = some (k, b)) :
    computerTurn fuel w =
      (match makeMove { w.game with board := b } k Mark.O with
        | Except.error g => some (Except.error { game := g, timers := w.timers - 1 })
        | Except.ok g =>
          some (Except.ok { game := { g with isComputerThinking := false },
                            timers := w.timers - 1 })) := by
  unfold computerTurn
  rw [h]

/-- C10, the code at the failing input: against the computer, X clicks cell 0,
which schedules the computer turn; `resetGame` runs before the callback and
leaves the empty board with X to move, but the callback stays scheduled; when it
runs it is not a no-op: it writes O at index 0 of the fresh board and passes the
turn to O. -/
theorem stale_computerTurn_after_reset :
    handleCellClick pvcPage 0 = Except.ok thinkingPage ∧
    resetGame thinkingPage = resetPage ∧
    resetPage.game.board = emptyBoard ∧ resetPage.game.currentPlayer = Mark.X ∧
    resetPage.timers = 1 ∧
    computerTurn 10 resetPage = some (Except.ok stalePage) ∧
    Board.get stalePage.game.board 0 = Cell.mark Mark.O ∧
    stalePage.game.currentPlayer = Mark.O ∧
    stalePage.game ≠ resetPage.game := by
  have hb : resetPage.game.board = emptyBoard := by decide!
  refine ⟨by decide!, by decide!, hb, by decide!, by decide!, ?_, by decide!, by decide!,
    by decide!⟩
  rw [computerTurn_eq 10 resetPage 0 emptyBoard
    ((congrArg (getBestMove 10) hb).trans getBestMove_emptyBoard)]
  decide!

end TicTacToe
